import Mathlib

/-!
# CascLib: the encoding table (`Casc/Parsers/Binary/Encoding.hpp`)

A shallow embedding of `Casc::Parsers::Binary::Encoding`: the two paged lookup
tables, their point and range queries, the page decoders and the stream parser.

Conventions of the embedding

* a byte is a `Nat` below 256, a `Hex` is the list of its bytes;
* `uint32_t`, `int` and `size_t` arithmetic is written on `Nat`/`Int` with the
  reduction modulo `2^32` / `2^64` spelled out wherever the source computes in
  that width;
* a C++ exception is an `Except.error`; the value `Error.undefinedBehaviour`
  marks the places where the source would read outside a vector or use an
  indeterminate value (the source throws nothing there);
* the hashing library (`md5`, `Crypto::lookup3`) is a parameter (`Crypto`).
-/

namespace Casc

/-! ## Data model -/

/-- Byte string used both as content hash and as file key (`Hex`, Common.hpp). -/
abbrev Hex := List Nat

/-- Modelled from the spec: the ordering `operator<=` of `Hex` (Common.hpp is not
among the sources); the spec gives it as the lexicographic order on bytes. -/
def hexLe : Hex → Hex → Bool
  | [], _ => true
  | _ :: _, [] => false
  | a :: as, b :: bs => decide (a < b) || (a == b && hexLe as bs)

/-- The record `Encoding::FileInfo` (lines 47-52). -/
structure FileInfo where
  hash : Hex
  size : Nat
  keys : List Hex
  deriving DecidableEq, Repr

/-- The record `Encoding::EncodedFileInfo` (lines 54-59); `params` is the byte
content of the `std::string`. -/
structure EncodedFileInfo where
  key : Hex
  size : Nat
  params : List Nat
  deriving DecidableEq, Repr

/-- What a member function can end with instead of a value. The first five are
the exceptions thrown by the source; `undefinedBehaviour` is no exception: it
marks a read outside a vector or of an indeterminate value. -/
inductive Error where
  | hashDoesNotExist (hash : Hex)
  | keyDoesNotExist (key : Hex)
  | invalidHash (expected actual : Nat)
  | invalidSignature (found expected : Nat)
  | streamFault
  | undefinedBehaviour
  deriving DecidableEq, Repr

/-- The hashing library the class consumes: the 128-bit digest `md5` and the
seeded 32-bit hash `Crypto::lookup3`. -/
structure Crypto where
  md5 : List Nat → Hex
  lookup3 : Hex → Nat → Nat

/-- The private state of `Encoding` (lines 213-222). The header vectors are held
as the source holds them after `parse`: in reversed file order. -/
structure Encoding where
  headersA : List (Hex × Hex)
  tableA : List Nat
  hashSizeA : Nat
  headersB : List (Hex × Hex)
  tableB : List Nat
  hashSizeB : Nat
  profiles : List (List Nat)
  deriving DecidableEq, Repr

/-- The constant `Signature` (line 205). -/
def Signature : Nat := 0x4E45

/-- The constant `HeaderSize` (line 208). -/
def HeaderSize : Nat := 22

/-- The constant `EntrySize` (line 211). -/
def EntrySize : Nat := 4096

/-- Equality of results is decidable, so that closed instances can be evaluated. -/
instance exceptDecEq {ε α : Type} [DecidableEq ε] [DecidableEq α] :
    DecidableEq (Except ε α)
  | .ok a, .ok b =>
    if h : a = b then isTrue (by rw [h]) else isFalse (by intro h2; cases h2; exact h rfl)
  | .error a, .error b =>
    if h : a = b then isTrue (by rw [h]) else isFalse (by intro h2; cases h2; exact h rfl)
  | .ok _, .error _ => isFalse (by intro h; cases h)
  | .error _, .ok _ => isFalse (by intro h; cases h)

/-! ## Machine integers -/

/-- Conversion of an unsigned value to the 32-bit `int` of `auto index = -1`. -/
def toInt32 (n : Nat) : Int :=
  if n % 2 ^ 32 < 2 ^ 31 then ((n % 2 ^ 32 : Nat) : Int) else ((n % 2 ^ 32 : Nat) : Int) - 2 ^ 32

/-- Conversion of an `int` argument to a `uint32_t` parameter. -/
def intToU32 (i : Int) : Nat := (i % 2 ^ 32).toNat

/-- Modelled from the spec: `IO::Endian::read<Little, T>` (IO/Endian.hpp is not
among the sources), the little-endian value of a byte sequence. -/
def readLE : List Nat → Nat
  | [] => 0
  | b :: bs => b + 256 * readLE bs

/-- Modelled from the spec: `IO::Endian::read<Big, T>` (IO/Endian.hpp is not
among the sources), the big-endian value of a byte sequence: the little-endian
value of the reversed bytes. -/
def readBE (bs : List Nat) : Nat := readLE bs.reverse

/-- The `n` bytes in front of an iterator, and the iterator moved behind them;
`none` when fewer than `n` bytes are left in the vector. -/
def takeBytes (n : Nat) (bs : List Nat) : Option (List Nat × List Nat) :=
  if n ≤ bs.length then some (bs.take n, bs.drop n) else none

/-! ## Table A: page decoder -/

/-- The inner loop of `parseEntry` (lines 271-275): `keyCount` keys of
`hashSize` bytes each. -/
def readKeys (hashSize : Nat) : Nat → List Nat → Option (List Hex × List Nat)
  | 0, bs => some ([], bs)
  | n + 1, bs =>
    match takeBytes hashSize bs with
    | none => none
    | some (key, rest) =>
      match readKeys hashSize n rest with
      | none => none
      | some (keys, rest2) => some (key :: keys, rest2)

/-- The record loop of `parseEntry` (lines 253-278). `pos` is `it - begin`, `bs`
the bytes of `tableA` from `it` on, `files` the vector built so far. Every round
that goes on moves `it` by at least six bytes, so `EntrySize` rounds of `fuel`
are never used up (`parseEntryLoop_fuel`). -/
def parseEntryLoop (hashSize : Nat) :
    Nat → Nat → List Nat → List FileInfo → Option (Except Error (List FileInfo))
  | fuel, pos, bs, files =>
    if pos < EntrySize then
      match fuel with
      | 0 => none
      | fuel + 1 =>
        match takeBytes 2 bs with
        | none => some (.error .undefinedBehaviour)
        | some (kc, bs1) =>
          let keyCount := readLE kc
          if keyCount = 0 then some (.ok files)
          else
            match takeBytes 4 bs1 with
            | none => some (.error .undefinedBehaviour)
            | some (sz, bs2) =>
              let fileSize := readBE sz
              match takeBytes hashSize bs2 with
              | none => some (.error .undefinedBehaviour)
              | some (hash, bs3) =>
                match readKeys hashSize keyCount bs3 with
                | none => some (.error .undefinedBehaviour)
                | some (keys, bs4) =>
                  parseEntryLoop hashSize fuel
                    (pos + 2 + 4 + hashSize + keyCount * hashSize) bs4
                    (files ++ [{ hash := hash, size := fileSize, keys := keys }])
    else some (.ok files)

/-- The offset `EntrySize * index` of lines 243 and 290: a product of two 32-bit
unsigned values. -/
def pageOffset (index : Nat) : Nat := (EntrySize * index) % 2 ^ 32

/-- The function `Encoding::parseEntry` (lines 239-281). -/
def parseEntry (c : Crypto) (E : Encoding) (index : Nat) (checksum : Hex) :
    Option (Except Error (List FileInfo)) :=
  let start := pageOffset index
  match takeBytes EntrySize (E.tableA.drop start) with
  | none => some (.error .undefinedBehaviour)
  | some (page, _) =>
    let actual := c.md5 page
    if actual ≠ checksum then
      some (.error (.invalidHash (c.lookup3 checksum 0) (c.lookup3 actual 0)))
    else parseEntryLoop E.hashSizeA EntrySize 0 (E.tableA.drop start) []

/-- The header scan that opens `findFileInfo` and `findEncodedFileInfo` (lines
66-77 and 102-113): `i` runs up from 0 over the in-memory vector, the first
header whose first key is `<=` the query sets `index = size - 1 - i` (an `int`)
and `checksum`, and ends the scan; without a hit `index` stays `-1` and
`checksum` stays default-constructed. -/
def scanHeaders (size : Nat) (hash : Hex) : List (Hex × Hex) → Nat → Int × Hex
  | [], _ => (-1, [])
  | h :: rest, i =>
    if hexLe h.1 hash then (toInt32 (size - 1 - i), h.2)
    else scanHeaders size hash rest (i + 1)

/-- The tail of `findFileInfo` (lines 84-94): the records of the decoded page
are searched front to back for the query hash. -/
def searchFiles (hash : Hex) :
    Option (Except Error (List FileInfo)) → Option (Except Error FileInfo)
  | none => none
  | some (.error e) => some (.error e)
  | some (.ok files) =>
    match files.find? (fun f => f.hash == hash) with
    | some f => some (.ok f)
    | none => some (.error (.hashDoesNotExist hash))

/-- The function `Encoding::findFileInfo` (lines 64-95). -/
def findFileInfo (c : Crypto) (E : Encoding) (hash : Hex) :
    Option (Except Error FileInfo) :=
  let r := scanHeaders E.headersA.length hash E.headersA 0
  if r.1 = -1 then some (.error (.hashDoesNotExist hash))
  else searchFiles hash (parseEntry c E (intToU32 r.1) r.2)

/-! ## Table B: page decoder and point query -/

/-- The record loop of `parseEncodedEntry` (lines 300-325); same conventions as
`parseEntryLoop`. The reference `profiles[profileIndex]` of line 315 is only
read on the branch `profileIndex >= 0`. -/
def parseEncodedEntryLoop (hashSize : Nat) (profiles : List (List Nat)) :
    Nat → Nat → List Nat → List EncodedFileInfo →
      Option (Except Error (List EncodedFileInfo))
  | fuel, pos, bs, files =>
    if pos < EntrySize then
      match fuel with
      | 0 => none
      | fuel + 1 =>
        match takeBytes hashSize bs with
        | none => some (.error .undefinedBehaviour)
        | some (key, bs1) =>
          match takeBytes 4 bs1 with
          | none => some (.error .undefinedBehaviour)
          | some (pi, bs2) =>
            let profileIndex := toInt32 (readBE pi)
            match takeBytes 1 bs2 with
            | none => some (.error .undefinedBehaviour)
            | some (_, bs3) =>
              match takeBytes 4 bs3 with
              | none => some (.error .undefinedBehaviour)
              | some (sz, bs4) =>
                let fileSize := readBE sz
                if 0 ≤ profileIndex then
                  match profiles.get? profileIndex.toNat with
                  | none => some (.error .undefinedBehaviour)
                  | some profile =>
                    parseEncodedEntryLoop hashSize profiles fuel
                      (pos + hashSize + 4 + 1 + 4) bs4
                      (files ++ [{ key := key, size := fileSize, params := profile }])
                else
                  parseEncodedEntryLoop hashSize profiles fuel
                    (pos + hashSize + 4 + 1 + 4) bs4
                    (files ++ [{ key := key, size := fileSize, params := [] }])
    else some (.ok files)

/-- The function `Encoding::parseEncodedEntry` (lines 286-328). -/
def parseEncodedEntry (c : Crypto) (E : Encoding) (index : Nat) (checksum : Hex) :
    Option (Except Error (List EncodedFileInfo)) :=
  let start := pageOffset index
  match takeBytes EntrySize (E.tableB.drop start) with
  | none => some (.error .undefinedBehaviour)
  | some (page, _) =>
    let actual := c.md5 page
    if actual ≠ checksum then
      some (.error (.invalidHash (c.lookup3 checksum 0) (c.lookup3 actual 0)))
    else parseEncodedEntryLoop E.hashSizeB E.profiles EntrySize 0 (E.tableB.drop start) []

/-- The tail of `findEncodedFileInfo` (lines 120-130). -/
def searchEncodedFiles (key : Hex) :
    Option (Except Error (List EncodedFileInfo)) → Option (Except Error EncodedFileInfo)
  | none => none
  | some (.error e) => some (.error e)
  | some (.ok files) =>
    match files.find? (fun f => f.key == key) with
    | some f => some (.ok f)
    | none => some (.error (.keyDoesNotExist key))

/-- The function `Encoding::findEncodedFileInfo` (lines 100-131). -/
def findEncodedFileInfo (c : Crypto) (E : Encoding) (key : Hex) :
    Option (Except Error EncodedFileInfo) :=
  let r := scanHeaders E.headersB.length key E.headersB 0
  if r.1 = -1 then some (.error (.keyDoesNotExist key))
  else searchEncodedFiles key (parseEncodedEntry c E (intToU32 r.1) r.2)

/-! ## Range queries -/

/-- Subtraction of two `size_t` values (64 bits), as in `count - list.size()`. -/
def sizeSub (a b : Nat) : Nat := (a % 2 ^ 64 + 2 ^ 64 - b % 2 ^ 64) % 2 ^ 64

/-- Conversion of an `int` to the `size_t` subscript of `headersB[index]`. -/
def intToSize (i : Int) : Nat := (i % 2 ^ 64).toNat

/-- What one pass through a `while` loop of the range queries leads to: the loop
is left with the vector `list`, or goes on with a new cursor `offset`, or an
exception (or undefined behaviour) ends the call. -/
inductive LoopStep (α : Type) where
  | done (list : List α)
  | next (offset : Nat) (list : List α)
  | fault (e : Error)
  deriving DecidableEq, Repr

/-- One pass through the loop of `Encoding::listFileInfo` (lines 140-163): the
test of the loop condition and, if it holds, the body. The state is the cursor
`offset` (a `uint32_t`) and the vector `list`. Line 160 is
`files.insert(list.end(), files.begin(), files.begin() + n)`: the position is
an iterator of another vector and the source range lies inside the target, so
for `n > 0` the call has undefined behaviour; for `n = 0` the range is empty
and nothing is inserted. `list` is not written anywhere in the loop. -/
def listFileInfoStep (c : Crypto) (E : Encoding) (count offset : Nat) (list : List FileInfo) :
    Option (LoopStep FileInfo) :=
  if list.length < count then
    let remaining := sizeSub count list.length
    if h : offset < E.headersA.length then
      let index := toInt32 (E.headersA.length - 1 - offset)
      let checksum := (E.headersA[offset]).2
      match parseEntry c E (intToU32 index) checksum with
      | none => none
      | some (.error e) => some (.fault e)
      | some (.ok files) =>
        let n := if remaining < files.length then remaining else files.length
        if 0 < n then some (.fault .undefinedBehaviour)
        else some (.next ((offset + n) % 2 ^ 32) list)
    else some (.done list)
  else some (.done list)

/-- The loop of `listFileInfo`, run for at most `fuel` passes; `none`: it is
still running after them. -/
def listFileInfoLoop (c : Crypto) (E : Encoding) (count : Nat) :
    Nat → Nat → List FileInfo → Option (Except Error (List FileInfo))
  | 0, _, _ => none
  | fuel + 1, offset, list =>
    match listFileInfoStep c E count offset list with
    | none => none
    | some (.done l) => some (.ok l)
    | some (.fault e) => some (.error e)
    | some (.next o l) => listFileInfoLoop c E count fuel o l

/-- The function `Encoding::listFileInfo` (lines 136-166), run for at most `fuel`
passes of its loop. -/
def listFileInfo (c : Crypto) (E : Encoding) (fuel offset count : Nat) :
    Option (Except Error (List FileInfo)) :=
  listFileInfoLoop c E count fuel offset []

/-- Line 177 of `listEncodedFileInfo`: `remaining = list.size() - count`. -/
def remainingB (listSize count : Nat) : Nat := sizeSub listSize count

/-- Line 193 of `listEncodedFileInfo`: the number of records taken from a page
that decoded to `filesSize` records (the inner `count`). -/
def takeSizeB (listSize count filesSize : Nat) : Nat :=
  if remainingB listSize count < filesSize then remainingB listSize count else filesSize

/-- One pass through the loop of `Encoding::listEncodedFileInfo` (lines
175-198). The page is decoded with `headersB[index].second`, not with the local
`checksum`; line 195 is the insert of `listFileInfoStep`, with undefined
behaviour when the take size is positive. -/
def listEncodedFileInfoStep (c : Crypto) (E : Encoding) (count offset : Nat)
    (list : List EncodedFileInfo) : Option (LoopStep EncodedFileInfo) :=
  if list.length < count then
    if offset < E.headersB.length then
      let index := toInt32 (E.headersB.length - 1 - offset)
      match E.headersB.get? (intToSize index) with
      | none => some (.fault .undefinedBehaviour)
      | some header =>
        match parseEncodedEntry c E (intToU32 index) header.2 with
        | none => none
        | some (.error e) => some (.fault e)
        | some (.ok files) =>
          let n := takeSizeB list.length count files.length
          if 0 < n then some (.fault .undefinedBehaviour)
          else some (.next ((offset + n) % 2 ^ 32) list)
    else some (.done list)
  else some (.done list)

/-- The loop of `listEncodedFileInfo`, run for at most `fuel` passes. -/
def listEncodedFileInfoLoop (c : Crypto) (E : Encoding) (count : Nat) :
    Nat → Nat → List EncodedFileInfo → Option (Except Error (List EncodedFileInfo))
  | 0, _, _ => none
  | fuel + 1, offset, list =>
    match listEncodedFileInfoStep c E count offset list with
    | none => none
    | some (.done l) => some (.ok l)
    | some (.fault e) => some (.error e)
    | some (.next o l) => listEncodedFileInfoLoop c E count fuel o l

/-- The function `Encoding::listEncodedFileInfo` (lines 171-201), run for at most
`fuel` passes of its loop. -/
def listEncodedFileInfo (c : Crypto) (E : Encoding) (fuel offset count : Nat) :
    Option (Except Error (List EncodedFileInfo)) :=
  listEncodedFileInfoLoop c E count fuel offset []

/-! ## The input stream and `parse` -/

/-- The `std::istream` that `parse` reads: its bytes, the get position and the
two state bits the source depends on. -/
structure IStream where
  data : List Nat
  pos : Nat
  eofbit : Bool
  failbit : Bool
  deriving DecidableEq, Repr

/-- A fresh stream over `data`. -/
def IStream.open (data : List Nat) : IStream :=
  { data := data, pos := 0, eofbit := false, failbit := false }

/-- Whether the stream is `good()`. -/
def IStream.good (s : IStream) : Bool := !s.eofbit && !s.failbit

/-- The call `stream->read(buf, n)`: the bytes extracted. A stream that is not
good extracts nothing and gets `failbit`; a stream with fewer than `n` bytes
left extracts what is left and gets `eofbit` and `failbit`. -/
def IStream.read (s : IStream) (n : Nat) : List Nat × IStream :=
  if s.good then
    if s.pos + n ≤ s.data.length then
      ((s.data.drop s.pos).take n, { s with pos := s.pos + n })
    else
      (s.data.drop s.pos, { s with pos := max s.pos s.data.length, eofbit := true, failbit := true })
  else ([], { s with failbit := true })

/-- The call `stream->seekg(off, std::ios_base::cur)`: `eofbit` is cleared, and
unless `failbit` is set the position moves. (Whether a move behind the end
fails depends on the stream buffer; in `parse` every `seekg` is followed by a
fixed-width read, which is short in either case.) -/
def IStream.seekg (s : IStream) (off : Nat) : IStream :=
  if s.failbit then { s with eofbit := false }
  else { s with eofbit := false, pos := s.pos + off }

/-- The call `stream->tellg()`: `-1` when the stream is not good (which also
sets `failbit`), the position otherwise. -/
def IStream.tellg (s : IStream) : Int × IStream :=
  if s.good then ((s.pos : Int), s) else (-1, { s with failbit := true })

/-- The call `std::getline(*stream, str, 0)` on an empty `str`: the bytes up to
the next zero byte, which is consumed; at the end of the data `eofbit` is set,
and `failbit` too when nothing was extracted. -/
def IStream.getline (s : IStream) : List Nat × IStream :=
  if s.good then
    let rest := s.data.drop s.pos
    let str := rest.takeWhile (fun b => b != 0)
    if str.length < rest.length then (str, { s with pos := s.pos + str.length + 1 })
    else
      (str, { s with pos := max s.pos s.data.length, eofbit := true,
                     failbit := decide (str.length = 0) })
  else ([], { s with failbit := true })

/-- The member template `read<Endian, T>` (lines 227-234) up to the endian
conversion: `n = sizeof(T)` bytes are read into an uninitialised array; `none`
when the read is short, so that the array is partly indeterminate. -/
def Encoding.read (n : Nat) (s : IStream) : Option (List Nat) × IStream :=
  let r := s.read n
  if r.1.length = n then (some r.1, r.2) else (none, r.2)

/-- A read into a zero-initialised `std::vector<char>` of `n` bytes (lines
386-390, 397-398): what is not extracted stays zero. -/
def readVector (n : Nat) (s : IStream) : List Nat × IStream :=
  let r := s.read n
  (r.1 ++ List.replicate (n - r.1.length) 0, r.2)

/-- The profile loop of `parse` (lines 369-381); `bound` is
`HeaderSize + stringTableSize - 1` in 32-bit unsigned arithmetic. Every round
that goes on consumes at least one byte; `none`: the loop is still running
after `fuel` rounds. -/
def parseProfiles (bound : Nat) :
    Nat → IStream → List (List Nat) → Option (Except Error (List (List Nat))) × IStream
  | 0, s, profiles =>
    if s.tellg.1 < (bound : Int) then (none, s.tellg.2) else (some (.ok profiles), s.tellg.2)
  | fuel + 1, s, profiles =>
    if s.tellg.1 < (bound : Int) then
      let g := s.tellg.2.getline
      if g.2.failbit then (some (.error .streamFault), g.2)
      else parseProfiles bound fuel g.2 (profiles ++ [g.1])
    else (some (.ok profiles), s.tellg.2)

/-- The header loops of `parse` (lines 384-393 and 402-411): `n` tuples of two
fields of `width` bytes each, appended in file order. -/
def parseHeaders (width : Nat) : Nat → IStream → List (Hex × Hex) → List (Hex × Hex) × IStream
  | 0, s, headers => (headers, s)
  | n + 1, s, headers =>
    let h := readVector width s
    let c := readVector width h.2
    parseHeaders width n c.2 (headers ++ [(h.1, c.1)])

/-- Lines 383-424 of `parse`: both tables and the closing profile string. Both
header loops read fields of `hashSizeA` bytes. -/
def parseTables (hashSizeA hashSizeB tableSizeA tableSizeB : Nat)
    (profiles : List (List Nat)) (s : IStream) : Encoding × IStream :=
  let hA := parseHeaders hashSizeA tableSizeA s []
  let tA := readVector ((EntrySize * tableSizeA) % 2 ^ 32) hA.2
  let hB := parseHeaders hashSizeA tableSizeB tA.2 []
  let tB := readVector ((EntrySize * tableSizeB) % 2 ^ 32) hB.2
  let g := tB.2.getline
  ({ headersA := hA.1.reverse, tableA := tA.1, hashSizeA := hashSizeA,
     headersB := hB.1.reverse, tableB := tB.1, hashSizeB := hashSizeB,
     profiles := profiles ++ [g.1] }, g.2)

/-- Lines 343-424 of `parse`: everything behind the signature check. -/
def parseAfterSignature (s1 : IStream) : Option (Except Error Encoding) × IStream :=
  match Encoding.read 1 (s1.seekg 1) with
  | (none, s2) => (some (.error .undefinedBehaviour), s2)
  | (some a, s2) =>
    match Encoding.read 1 s2 with
    | (none, s3) => (some (.error .undefinedBehaviour), s3)
    | (some b, s3) =>
      match Encoding.read 4 (s3.seekg 4) with
      | (none, s4) => (some (.error .undefinedBehaviour), s4)
      | (some ta, s4) =>
        match Encoding.read 4 s4 with
        | (none, s5) => (some (.error .undefinedBehaviour), s5)
        | (some tb, s5) =>
          match Encoding.read 4 (s5.seekg 1) with
          | (none, s6) => (some (.error .undefinedBehaviour), s6)
          | (some st, s6) =>
            let bound := (HeaderSize + readBE st + 2 ^ 32 - 1) % 2 ^ 32
            match parseProfiles bound (bound + 1) s6 [] with
            | (none, s7) => (none, s7)
            | (some (.error e), s7) => (some (.error e), s7)
            | (some (.ok profiles), s7) =>
              let r := parseTables (readLE a) (readLE b) (readBE ta) (readBE tb) profiles s7
              (some (.ok r.1), r.2)

/-- The function `Encoding::parse` (lines 333-424): the result and the stream as
it is left behind. -/
def parse (s0 : IStream) : Option (Except Error Encoding) × IStream :=
  match Encoding.read 2 s0 with
  | (none, s1) => (some (.error .undefinedBehaviour), s1)
  | (some sig, s1) =>
    if readLE sig ≠ Signature then
      (some (.error (.invalidSignature (readLE sig) 0x4E45)), s1)
    else parseAfterSignature s1

/-! ## The chunk handlers (`CascHandler.hpp`) -/

/-- The `std::filebuf` a handler reads: the bytes of the file and the get
position. -/
structure FileBuf where
  data : List Nat
  pos : Nat
  deriving DecidableEq, Repr

/-- The call `buf.pubseekoff(off, std::ios_base::cur)` for `off > 0`; a file
buffer may be positioned behind the end of the file. -/
def FileBuf.pubseekoff (b : FileBuf) (off : Int) : FileBuf :=
  { b with pos := ((b.pos : Int) + off).toNat }

/-- The call `buf.sgetn(s, n)`: up to `n` bytes from the get position on, as
many as the file still holds. -/
def FileBuf.sgetn (b : FileBuf) (n : Nat) : List Nat × FileBuf :=
  ((b.data.drop b.pos).take n, { b with pos := b.pos + ((b.data.drop b.pos).take n).length })

/-- The function `DefaultHandler::buffer` (lines 56-69): `none` is the null
pointer. `inSize` and `chunkSize` are not used by the source. -/
def DefaultHandler.buffer (buf : FileBuf) (offset : Int) (_inSize outSize : Nat) :
    Option (List Nat) × FileBuf :=
  let buf1 := if offset > 0 then buf.pubseekoff offset else buf
  let r := buf1.sgetn outSize
  if r.1.length = outSize then (some r.1, r.2) else (none, r.2)

/-- The members of `ZlibHandler` (lines 78-79): `out` (`none` is the null
pointer it starts with) and `avail_out`. -/
structure ZlibHandler where
  out : Option (List Nat)
  avail_out : Nat
  deriving DecidableEq, Repr

/-- A handler as its constructor leaves it. -/
def ZlibHandler.fresh : ZlibHandler := { out := none, avail_out := 0 }

/-- The test of line 88, `avail_out - offset < outSize`: `avail_out` is a
`size_t` and `offset` a 64-bit signed `off_type`, so the difference is taken in
64-bit unsigned arithmetic. -/
def ZlibHandler.needsInflate (h : ZlibHandler) (offset : Int) (outSize : Nat) : Bool :=
  decide ((((h.avail_out : Int) - offset) % 2 ^ 64).toNat < outSize % 2 ^ 64)

/-- What a call of `ZlibHandler::buffer` leaves behind: the bytes returned, the
handler, the file buffer and the output parameter `chunkSize`. -/
structure ZlibResult where
  bytes : Except Error (List Nat)
  handler : ZlibHandler
  buf : FileBuf
  chunkSize : Int
  deriving DecidableEq, Repr

/-- Line 99, `memcpy(resizedOut, out + offset, outSize)`: the bytes
`[offset, offset + outSize)` of the cached buffer; a range that is not inside
the buffer (none of it is, for the null pointer, unless it is empty) is a read
outside it. -/
def ZlibHandler.copyOut (h : ZlibHandler) (offset : Int) (outSize : Nat) :
    Except Error (List Nat) :=
  let cache := h.out.getD []
  if 0 ≤ offset ∧ offset.toNat + outSize ≤ cache.length then
    .ok ((cache.drop offset.toNat).take outSize)
  else .error .undefinedBehaviour

/-- The function `ZlibHandler::buffer` (lines 86-104). `inflate` stands for
`ZInflateStream(in, inSize).readAll(&out, avail_out)` (not among the sources):
it gives the inflated bytes, which become `out`, their number `avail_out`. -/
def ZlibHandler.buffer (inflate : List Nat → List Nat) (h : ZlibHandler) (buf : FileBuf)
    (offset : Int) (inSize outSize : Nat) (chunkSize : Int) : ZlibResult :=
  if h.needsInflate offset outSize then
    let r := buf.sgetn inSize
    if r.1.length = inSize then
      let h1 : ZlibHandler := { out := some (inflate r.1), avail_out := (inflate r.1).length }
      { bytes := h1.copyOut offset outSize, handler := h1, buf := r.2,
        chunkSize := (h1.avail_out : Int) }
    else
      { bytes := h.copyOut offset outSize, handler := h, buf := r.2, chunkSize := chunkSize }
  else
    { bytes := h.copyOut offset outSize, handler := h, buf := buf, chunkSize := chunkSize }

/-! ## Well-formed tables, as the data model of the specification states them -/

/-- Whether the first keys of the page headers, in file order, never decrease. -/
def nonDecreasing : List (Hex × Hex) → Bool
  | a :: b :: rest => hexLe a.1 b.1 && nonDecreasing (b :: rest)
  | _ => true

/-- The stored form of one table-A record: `keyCount` (u16, little-endian),
`fileSize` (u32, big-endian), the content hash, then the keys. -/
def encodeRecord (f : FileInfo) : List Nat :=
  [f.keys.length % 256, f.keys.length / 256 % 256] ++
    [f.size / 2 ^ 24 % 256, f.size / 2 ^ 16 % 256, f.size / 2 ^ 8 % 256, f.size % 256] ++
    f.hash ++ f.keys.foldr (fun k acc => k ++ acc) []

/-- Records stored one behind the other. -/
def encodeRecords : List FileInfo → List Nat
  | [] => []
  | f :: fs => encodeRecord f ++ encodeRecords fs

/-- A table-A page as the file stores it: the first key of its header, its
records and the bytes that fill it up. -/
structure PageA where
  firstKey : Hex
  records : List FileInfo
  padding : List Nat
  deriving DecidableEq, Repr

/-- The raw bytes of a page: its records, densely packed, then the padding. -/
def PageA.bytes (p : PageA) : List Nat := encodeRecords p.records ++ p.padding

/-- A record that its stored form represents: between 1 and 65535 keys, a
32-bit size, hash and keys of the width of the table. -/
def validRecord (hashSize : Nat) (f : FileInfo) : Bool :=
  decide (0 < f.keys.length) && decide (f.keys.length < 2 ^ 16) && decide (f.size < 2 ^ 32) &&
    decide (f.hash.length = hashSize) && f.keys.all (fun k => decide (k.length = hashSize))

/-- A well-formed page: 4096 bytes, padding that is empty or opens with a zero
`keyCount`, and every record valid, at least the first key of the page and
below the first key `next` of the following page. -/
def wellFormedPage (hashSize : Nat) (p : PageA) (next : Option Hex) : Bool :=
  decide (p.bytes.length = EntrySize) && (p.padding.isEmpty || p.padding.take 2 == [0, 0]) &&
    p.records.all (fun r =>
      validRecord hashSize r && hexLe p.firstKey r.hash &&
        (match next with
         | none => true
         | some nk => !hexLe nk r.hash))

/-- All pages of a table, in file order, are well-formed. -/
def wellFormedPages (hashSize : Nat) : List PageA → Bool
  | [] => true
  | p :: rest =>
    wellFormedPage hashSize p (rest.head?.map PageA.firstKey) && wellFormedPages hashSize rest

/-- The page data region: the pages one behind the other, in file order. -/
def tableBytes : List PageA → List Nat
  | [] => []
  | p :: rest => p.bytes ++ tableBytes rest

/-- The page headers in file order: first key and digest of the page bytes. -/
def fileHeaders (c : Crypto) (pages : List PageA) : List (Hex × Hex) :=
  pages.map (fun p => (p.firstKey, c.md5 p.bytes))

/-- A stream over `data` in good state with the get position `pos`. -/
def IStream.goodAt (data : List Nat) (pos : Nat) : IStream :=
  { data := data, pos := pos, eofbit := false, failbit := false }

/-- The stored form of a sequence of profile strings: each is followed by a zero
byte. -/
def encodeStrings : List (List Nat) → List Nat
  | [] => []
  | s :: rest => s ++ 0 :: encodeStrings rest

/-- The strings `strs`, stored from position `pos` on, are the profile region
for the loop bound `bound`: every string starts before `bound` and the last one
ends at or behind it. -/
def profileRegion (bound : Nat) : Nat → List (List Nat) → Bool
  | pos, [] => decide (bound ≤ pos)
  | pos, s :: rest => decide (pos < bound) && profileRegion bound (pos + s.length + 1) rest

/-- The bound of the profile loop (line 369) for the stream `data`:
`HeaderSize + stringTableSize - 1` in 32-bit unsigned arithmetic, with
`stringTableSize` the big-endian u32 at bytes 18..21. -/
def profileBound (data : List Nat) : Nat :=
  (HeaderSize + readBE ((data.drop 18).take 4) + 2 ^ 32 - 1) % 2 ^ 32

/-- The field `pageCountA` of the stream `data`: the big-endian u32 at bytes
9..12. -/
def pageCountA (data : List Nat) : Nat := readBE ((data.drop 9).take 4)

/-- The field `pageCountB` of the stream `data`: the big-endian u32 at bytes
13..16. -/
def pageCountB (data : List Nat) : Nat := readBE ((data.drop 13).take 4)

/-- The position behind the profile strings `strs`, which are stored from byte
22 on: there the header tuples of table A start. -/
def tableStart (strs : List (List Nat)) : Nat := HeaderSize + (encodeStrings strs).length

/-- The position behind the page data of table A: there the header tuples of
table B start. `hashSizeA` is byte 3 of the stream. -/
def tableAEnd (data : List Nat) (strs : List (List Nat)) : Nat :=
  tableStart strs + 2 * data.getD 3 0 * pageCountA data + EntrySize * pageCountA data

/-- The number of passes of the record loop of `parseEncodedEntry` over a page:
the least `n` with `n * (hashSize + 9) >= 4096`. -/
def slotCount (hashSize : Nat) : Nat := (EntrySize + hashSize + 8) / (hashSize + 9)

/-- The `profileIndex` field of record slot `j`: the big-endian signed 32-bit
value at bytes `hashSize .. hashSize + 3` of the slot; `bs` are the table bytes
from the start of the page on. -/
def slotProfileIndex (hashSize : Nat) (bs : List Nat) (j : Nat) : Int :=
  toInt32 (readBE ((bs.drop (j * (hashSize + 9) + hashSize)).take 4))

/-- The record that slot `j` describes: key, size and profile as the layout of
the specification places them. -/
def slotRecord (hashSize : Nat) (profiles : List (List Nat)) (bs : List Nat) (j : Nat) :
    EncodedFileInfo :=
  { key := (bs.drop (j * (hashSize + 9))).take hashSize,
    size := readBE ((bs.drop (j * (hashSize + 9) + hashSize + 5)).take 4),
    params :=
      if slotProfileIndex hashSize bs j < 0 then []
      else profiles.getD (slotProfileIndex hashSize bs j).toNat [] }

/-! ## Concrete tables and streams -/

/-- A stand-in for the hashing library on concrete inputs. -/
def toyCrypto : Crypto :=
  { md5 := fun bs => [bs.sum % 256, bs.length % 256], lookup3 := fun h s => h.sum + s }

/-- The 16-byte hash `0x00..0b`. -/
def hx (b : Nat) : Hex := List.replicate 15 0 ++ [b]

/-- Two page headers in file order, with first keys `0x00..01` and `0x00..09`. -/
def twoHeaders : List (Hex × Hex) := [(hx 1, [7]), (hx 9, [8])]

/-- A table whose two header vectors hold `twoHeaders` as `parse` leaves them. -/
def twoHeaderTable : Encoding :=
  { headersA := twoHeaders.reverse, tableA := [], hashSizeA := 16,
    headersB := twoHeaders.reverse, tableB := [], hashSizeB := 16, profiles := [] }

/-- The page of the scenario of the specification: `hashSizeA = 16`, two records
with content hashes `0x00..01` and `0x00..FF`, one key each, then zero bytes. -/
def scenarioPage : PageA :=
  { firstKey := hx 1,
    records := [{ hash := hx 1, size := 7, keys := [hx 0xAA] },
                { hash := hx 0xFF, size := 256, keys := [hx 0xBB] }],
    padding := List.replicate 4020 0 }

/-- The header of a table-B page of 4096 zero bytes, in the width `parse` reads. -/
def zeroHeadersB : List (Hex × Hex) :=
  [(List.replicate 16 0, toyCrypto.md5 (List.replicate 4096 0))]

/-- The one-page table of the scenario. Its table B has keys of 7 bytes, so that
a page holds 256 records of 16 bytes; the page is all zero, so every record has
the zero key and profile 0. -/
def scenarioTable : Encoding :=
  { headersA := (fileHeaders toyCrypto [scenarioPage]).reverse,
    tableA := tableBytes [scenarioPage], hashSizeA := 16,
    headersB := zeroHeadersB.reverse, tableB := List.replicate 4096 0, hashSizeB := 7,
    profiles := [[]] }

/-- The scenario table after the last byte of either page was overwritten with 1;
the headers still hold the digests of the original pages. -/
def corruptTable : Encoding :=
  { scenarioTable with
    tableA := (tableBytes [scenarioPage]).take 4095 ++ [1],
    tableB := List.replicate 4095 0 ++ [1] }

/-- A 7-byte key that no record of the zero page has. -/
def scenarioKey7 : Hex := [0, 0, 0, 0, 0, 0, 1]

/-- A 22-byte header with a valid signature, `hashSizeA = hashSizeB = 16`,
`pageCountA = a`, `pageCountB = b` and `stringTableSize = 0`. -/
def streamHeader (a b : Nat) : List Nat :=
  [0x45, 0x4E, 1, 16, 16, 0, 0, 0, 0, 0, 0, 0, a, 0, 0, 0, b, 0, 0, 0, 0, 0]

/-- A stream that announces one table-A page and ends three bytes into it. -/
def truncatedStream : List Nat := streamHeader 1 0 ++ hx 1 ++ hx 2 ++ [1, 2, 3]

/-- A stream whose signature bytes are zero. -/
def zeroSignatureStream : List Nat := [0, 0] ++ (streamHeader 0 0).drop 2 ++ [0]

/-- A stream with `hashSizeA = 16`, `hashSizeB = 7`, the profile strings `A` and
`B` (`stringTableSize = 5`), one table-A page (the page of the scenario), one
table-B page of zero bytes and the closing profile string `C`. -/
def layoutStream : List Nat :=
  [0x45, 0x4E, 1, 16, 7, 0, 0, 0, 0, 0, 0, 0, 1, 0, 0, 0, 1, 0, 0, 0, 0, 5] ++
    [65, 0, 66, 0] ++ hx 1 ++ hx 2 ++ scenarioPage.bytes ++
    List.replicate 16 0 ++ hx 3 ++ List.replicate 4096 0 ++ [67, 0]

/-- A stand-in for the inflate primitive on concrete inputs: a chunk of `n` raw
bytes inflates to four times as many bytes, `0, 1, 2, ...`. -/
def toyInflate (raw : List Nat) : List Nat := List.range (4 * raw.length)

/-- A file that holds one raw chunk of five bytes. -/
def chunkFile : FileBuf := { data := [9, 8, 7, 6, 5], pos := 0 }

/-- A table-B page for keys of 7 bytes whose first record has `profileIndex = 1`;
all other bytes are zero. -/
def badProfilePage : List Nat := List.replicate 7 0 ++ [0, 0, 0, 1] ++ List.replicate 4085 0

/-- A table B of that one page with a profile table of one entry. -/
def badProfileTable : Encoding :=
  { headersA := [], tableA := [], hashSizeA := 7,
    headersB := [(List.replicate 7 0, toyCrypto.md5 badProfilePage)],
    tableB := badProfilePage, hashSizeB := 7, profiles := [[]] }

/-- The second page of `wideKeyTable`: it opens with the bytes `0, 0, 0, 42`. -/
def wideKeyPage1 : List Nat := [0, 0, 0, 42] ++ List.replicate 4092 0

/-- A table B of two pages with keys of 16 bytes (records of 25 bytes): page 0 is
all zero, page 1 is `wideKeyPage1`; the profile table holds one profile. -/
def wideKeyTable : Encoding :=
  { headersA := [], tableA := [], hashSizeA := 16,
    headersB := [(hx 1, toyCrypto.md5 wideKeyPage1),
                 (List.replicate 16 0, toyCrypto.md5 (List.replicate 4096 0))],
    tableB := List.replicate 4096 0 ++ wideKeyPage1, hashSizeB := 16, profiles := [[112]] }

/-- A record of `wideKeyTable`: the zero key, the given size, the one profile. -/
def wideKeyRecord (size : Nat) : EncodedFileInfo :=
  { key := List.replicate 16 0, size := size, params := [112] }

/-- The second page of `twoPageTableB`: zero bytes, then a byte 1. -/
def pairingPage1 : List Nat := List.replicate 4095 0 ++ [1]

/-- A table B of two pages with keys of 7 bytes; each header, in file order,
holds the digest of its own page. -/
def twoPageTableB : Encoding :=
  { headersA := [], tableA := [], hashSizeA := 16,
    headersB := [(List.replicate 16 0, toyCrypto.md5 (List.replicate 4096 0)),
                 (hx 1, toyCrypto.md5 pairingPage1)].reverse,
    tableB := List.replicate 4096 0 ++ pairingPage1, hashSizeB := 7, profiles := [[]] }

/-- A table-A page without records: 4096 zero bytes, so that its first `keyCount`
is zero. -/
def zeroPage : PageA :=
  { firstKey := hx 0, records := [], padding := List.replicate 4096 0 }

/-- The table A with `zeroPage` as its only page; the header holds the digest of
the page. -/
def zeroPageTable : Encoding :=
  { headersA := (fileHeaders toyCrypto [zeroPage]).reverse,
    tableA := tableBytes [zeroPage], hashSizeA := 16,
    headersB := [], tableB := [], hashSizeB := 16, profiles := [] }

/-- The page of `longKeyTable`: a record with a zero key of 247 bytes, profile
index `-1` and size 5, then zero bytes. -/
def longKeyPage : List Nat :=
  List.replicate 247 0 ++ [0xFF, 0xFF, 0xFF, 0xFF, 0, 0, 0, 0, 5] ++ List.replicate 3840 0

/-- A table B of one page with keys of 247 bytes (records of 256 bytes, 16 to the
page); the header holds the digest of the page and the profile table one
profile. -/
def longKeyTable : Encoding :=
  { headersA := [], tableA := [], hashSizeA := 16,
    headersB := [(List.replicate 16 0, toyCrypto.md5 longKeyPage)],
    tableB := longKeyPage, hashSizeB := 247, profiles := [[112]] }

theorem hexLe_refl : ∀ a : Hex, hexLe a a = true
  | [] => rfl
  | a :: as => by simp [hexLe, hexLe_refl as]

theorem hexLe_trans : ∀ a b c : Hex, hexLe a b = true → hexLe b c = true → hexLe a c = true
  | [], _, _, _, _ => by simp [hexLe]
  | _ :: _, [], _, h, _ => by simp [hexLe] at h
  | _ :: _, _ :: _, [], _, h => by simp [hexLe] at h
  | a :: as, b :: bs, c :: cs, h1, h2 => by
    simp only [hexLe, Bool.or_eq_true, decide_eq_true_eq, Bool.and_eq_true, beq_iff_eq] at h1 h2 ⊢
    rcases h1 with h1 | ⟨h1, h1'⟩
    · rcases h2 with h2 | ⟨h2, _⟩
      · left; omega
      · left; omega
    · rcases h2 with h2 | ⟨h2, h2'⟩
      · left; omega
      · right; exact ⟨by omega, hexLe_trans as bs cs h1' h2'⟩

theorem hexLe_total : ∀ a b : Hex, hexLe a b = true ∨ hexLe b a = true
  | [], _ => by simp [hexLe]
  | _ :: _, [] => by simp [hexLe]
  | a :: as, b :: bs => by
    simp only [hexLe, Bool.or_eq_true, decide_eq_true_eq, Bool.and_eq_true, beq_iff_eq]
    rcases Nat.lt_trichotomy a b with h | h | h
    · left; left; exact h
    · rcases hexLe_total as bs with h2 | h2
      · left; right; exact ⟨h, h2⟩
      · right; right; exact ⟨h.symm, h2⟩
    · right; left; exact h

theorem toInt32_eq_neg_one (n : Nat) : toInt32 n = -1 ↔ n % 2 ^ 32 = 2 ^ 32 - 1 := by
  unfold toInt32
  split <;> omega

theorem intToU32_toInt32 (n : Nat) : intToU32 (toInt32 n) = n % 2 ^ 32 := by
  unfold intToU32 toInt32
  split <;> omega

theorem scanHeaders_miss (size : Nat) (k : Hex) :
    ∀ (l : List (Hex × Hex)) (i0 : Nat), (∀ h ∈ l, hexLe h.1 k = false) →
      scanHeaders size k l i0 = (-1, [])
  | [], _, _ => rfl
  | h :: rest, i0, hl => by
    have h1 : hexLe h.1 k = false := hl h (List.mem_cons_self _ _)
    simp only [scanHeaders, h1, Bool.false_eq_true, if_false]
    exact scanHeaders_miss size k rest (i0 + 1) (fun x hx => hl x (List.mem_cons_of_mem _ hx))

theorem scanHeaders_hit (size : Nat) (k : Hex) :
    ∀ (l : List (Hex × Hex)) (i0 j : Nat) (hj : j < l.length),
      hexLe (l[j]).1 k = true →
      (∀ j2 (h2 : j2 < l.length), j2 < j → hexLe (l[j2]).1 k = false) →
      scanHeaders size k l i0 = (toInt32 (size - 1 - (i0 + j)), (l[j]).2)
  | [], _, _, hj, _, _ => by simp at hj
  | h :: rest, i0, 0, _, hhit, _ => by
    simp only [List.getElem_cons_zero] at hhit
    simp [scanHeaders, hhit]
  | h :: rest, i0, j + 1, hj, hhit, hmiss => by
    have h0 : hexLe h.1 k = false := hmiss 0 (by simp) (by omega)
    simp only [List.getElem_cons_succ] at hhit
    simp only [scanHeaders, h0, Bool.false_eq_true, if_false, List.getElem_cons_succ]
    have := scanHeaders_hit size k rest (i0 + 1) j (by simpa using hj) hhit
      (fun j2 h2 hlt => by
        have := hmiss (j2 + 1) (by simpa using h2) (by omega)
        simpa using this)
    rw [this]
    congr 2
    omega

theorem exists_greatest (P : Nat → Prop) :
    ∀ n : Nat, (∃ j, j < n ∧ P j) → ∃ i, i < n ∧ P i ∧ ∀ j, i < j → j < n → ¬ P j
  | 0, ⟨j, hj, _⟩ => absurd hj (Nat.not_lt_zero j)
  | n + 1, ⟨j, hj, hP⟩ => by
    by_cases hn : P n
    · exact ⟨n, Nat.lt_succ_self n, hn, fun j h1 h2 => by omega⟩
    · have hjn : j < n := by
        rcases Nat.lt_succ_iff_lt_or_eq.mp hj with h | h
        · exact h
        · subst h; exact absurd hP hn
      obtain ⟨i, hi, hPi, hgt⟩ := exists_greatest P n ⟨j, hjn, hP⟩
      refine ⟨i, by omega, hPi, fun j2 h1 h2 => ?_⟩
      rcases Nat.lt_succ_iff_lt_or_eq.mp h2 with h | h
      · exact hgt j2 h1 h
      · subst h; exact hn

theorem nonDecreasing_chain : ∀ hs : List (Hex × Hex), nonDecreasing hs = true →
    hs.Chain' (fun a b => hexLe a.1 b.1 = true)
  | [], _ => List.chain'_nil
  | [_], _ => List.chain'_singleton _
  | a :: b :: rest, h => by
    simp only [nonDecreasing, Bool.and_eq_true] at h
    exact List.chain'_cons.mpr ⟨h.1, nonDecreasing_chain (b :: rest) h.2⟩

theorem sorted_mono (hs : List (Hex × Hex))
    (hnd : nonDecreasing hs = true)
    (a b : Nat) (hab : a ≤ b) (hb : b < hs.length) :
    hexLe (hs[a]).1 (hs[b]).1 = true := by
  have hsorted := nonDecreasing_chain hs hnd
  haveI : IsTrans (Hex × Hex) (fun a b => hexLe a.1 b.1 = true) :=
    ⟨fun x y z h1 h2 => hexLe_trans _ _ _ h1 h2⟩
  rcases Nat.eq_or_lt_of_le hab with h | h
  · subst h; exact hexLe_refl _
  · have hp := List.chain'_iff_pairwise.mp hsorted
    exact (List.pairwise_iff_getElem.mp hp) a b (by omega) hb h

theorem scanHeaders_reverse (hs : List (Hex × Hex)) (k : Hex) (i : Nat) (hi : i < hs.length)
    (hle : hexLe (hs[i]).1 k = true)
    (hgt : ∀ j (hj : j < hs.length), i < j → hexLe (hs[j]).1 k = false) :
    scanHeaders hs.length k hs.reverse 0 = (toInt32 i, (hs[i]).2) := by
  have hlen : hs.reverse.length = hs.length := List.length_reverse hs
  have hj : hs.length - 1 - i < hs.reverse.length := by omega
  have hget : ∀ j (h : j < hs.reverse.length), hs.reverse[j] = hs[hs.length - 1 - j] := by
    intro j h
    rw [List.getElem_reverse]
  have := scanHeaders_hit hs.length k hs.reverse 0 (hs.length - 1 - i) hj
    (by rw [hget]; simpa [show hs.length - 1 - (hs.length - 1 - i) = i by omega] using hle)
    (fun j2 h2 hlt => by
      rw [hget]
      exact hgt (hs.length - 1 - j2) (by omega) (by omega))
  rw [this, hget]
  simp only [show hs.length - 1 - (0 + (hs.length - 1 - i)) = i by omega,
    show hs.length - 1 - (hs.length - 1 - i) = i by omega]

theorem floor_index (hs : List (Hex × Hex)) (k : Hex)
    (hsorted : nonDecreasing hs = true)
    (hk : ∃ h0 : 0 < hs.length, hexLe (hs[0]).1 k = true) :
    ∃ i, ∃ hi : i < hs.length,
      (∀ j (hj : j < hs.length), hexLe (hs[j]).1 k = true ↔ j ≤ i) ∧
      scanHeaders hs.length k hs.reverse 0 = (toInt32 i, (hs[i]).2) := by
  obtain ⟨h0, hk0⟩ := hk
  obtain ⟨i, hi, ⟨_, hPi⟩, hgt⟩ :=
    exists_greatest (fun j => ∃ h : j < hs.length, hexLe (hs[j]).1 k = true) hs.length
      ⟨0, h0, h0, hk0⟩
  refine ⟨i, hi, ?_, ?_⟩
  · intro j hj
    constructor
    · intro hle
      by_contra hlt
      exact hgt j (by omega) hj ⟨hj, hle⟩
    · intro hle
      exact hexLe_trans _ _ _ (sorted_mono hs hsorted j i hle hi) hPi
  · refine scanHeaders_reverse hs k i hi hPi (fun j hj hij => ?_)
    cases hv : hexLe (hs[j]).1 k
    · rfl
    · exact absurd ⟨hj, hv⟩ (hgt j hij hj)

theorem index_roundtrip (i n : Nat) (hi : i < n) (hn : n < 2 ^ 32) :
    ¬ toInt32 i = -1 ∧ intToU32 (toInt32 i) = i := by
  constructor
  · rw [toInt32_eq_neg_one]
    have : i % 2 ^ 32 = i := Nat.mod_eq_of_lt (by omega)
    omega
  · rw [intToU32_toInt32]; exact Nat.mod_eq_of_lt (by omega)

theorem takeBytes_append (n : Nat) (a b : List Nat) (h : a.length = n) :
    takeBytes n (a ++ b) = some (a, b) := by
  subst h
  simp [takeBytes]

theorem readLE_u16 (x : Nat) (h : x < 2 ^ 16) : readLE [x % 256, x / 256 % 256] = x := by
  simp only [readLE]
  omega

theorem readBE_u32 (x : Nat) (h : x < 2 ^ 32) :
    readBE [x / 2 ^ 24 % 256, x / 2 ^ 16 % 256, x / 2 ^ 8 % 256, x % 256] = x := by
  simp only [readBE, readLE, List.reverse_cons, List.reverse_nil, List.nil_append,
    List.cons_append]
  omega

theorem readKeys_join (hs : Nat) : ∀ (keys : List Hex) (rest : List Nat),
    (∀ k ∈ keys, k.length = hs) →
    readKeys hs keys.length (keys.foldr (fun k acc => k ++ acc) [] ++ rest) = some (keys, rest)
  | [], rest, _ => rfl
  | k :: ks, rest, h => by
    have hk : k.length = hs := h k (List.mem_cons_self _ _)
    have ih := readKeys_join hs ks rest (fun x hx => h x (List.mem_cons_of_mem _ hx))
    simp only [List.length_cons, List.foldr_cons, readKeys, List.append_assoc,
      takeBytes_append hs k _ hk, ih]

theorem joinKeys_length (hs : Nat) : ∀ keys : List Hex, (∀ k ∈ keys, k.length = hs) →
    (keys.foldr (fun k acc => k ++ acc) []).length = keys.length * hs
  | [], _ => by simp
  | k :: ks, h => by
    have hk : k.length = hs := h k (List.mem_cons_self _ _)
    have ih := joinKeys_length hs ks (fun x hx => h x (List.mem_cons_of_mem _ hx))
    simp only [List.foldr_cons, List.length_append, List.length_cons, hk, ih]
    rw [Nat.add_mul]; omega

theorem validRecord_iff (hs : Nat) (f : FileInfo) : validRecord hs f = true ↔
    0 < f.keys.length ∧ f.keys.length < 2 ^ 16 ∧ f.size < 2 ^ 32 ∧ f.hash.length = hs ∧
      ∀ k ∈ f.keys, k.length = hs := by
  simp [validRecord, and_assoc]

theorem encodeRecord_length (hs : Nat) (f : FileInfo) (h : validRecord hs f = true) :
    (encodeRecord f).length = 2 + 4 + hs + f.keys.length * hs := by
  obtain ⟨_, _, _, h4, h5⟩ := (validRecord_iff hs f).mp h
  simp only [encodeRecord, List.length_append, List.length_cons, List.length_nil, h4,
    joinKeys_length hs f.keys h5]

theorem parseEntryLoop_records (hs : Nat) :
    ∀ (records : List FileInfo) (fuel pos : Nat) (pad rest : List Nat) (files : List FileInfo),
      (∀ r ∈ records, validRecord hs r = true) →
      pos + (encodeRecords records).length + pad.length = EntrySize →
      (pad = [] ∨ ∃ t, pad = 0 :: 0 :: t) →
      EntrySize ≤ pos + fuel →
      parseEntryLoop hs fuel pos (encodeRecords records ++ pad ++ rest) files =
        some (.ok (files ++ records))
  | [], fuel, pos, pad, rest, files, _, hlen, hpad, hfuel => by
    rcases hpad with hpad | ⟨t, hpad⟩
    · subst hpad
      simp only [encodeRecords, List.length_nil, Nat.add_zero] at hlen
      unfold parseEntryLoop
      simp [hlen]
    · subst hpad
      simp only [encodeRecords, List.length_nil, Nat.add_zero, List.length_cons] at hlen
      have hpos : pos < EntrySize := by omega
      obtain ⟨fuel2, rfl⟩ : ∃ f2, fuel = f2 + 1 := ⟨fuel - 1, by omega⟩
      unfold parseEntryLoop
      simp [hpos, encodeRecords, takeBytes, readLE]
  | r :: rs, fuel, pos, pad, rest, files, hvalid, hlen, hpad, hfuel => by
    have hr : validRecord hs r = true := hvalid r (List.mem_cons_self _ _)
    have hrl := encodeRecord_length hs r hr
    obtain ⟨h1, h2, h3, h4, h5⟩ := (validRecord_iff hs r).mp hr
    simp only [encodeRecords, List.length_append] at hlen
    have hpos : pos < EntrySize := by omega
    obtain ⟨fuel2, rfl⟩ : ∃ f2, fuel = f2 + 1 := ⟨fuel - 1, by omega⟩
    have ih := parseEntryLoop_records hs rs fuel2 (pos + 2 + 4 + hs + r.keys.length * hs) pad rest
      (files ++ [r]) (fun x hx => hvalid x (List.mem_cons_of_mem _ hx)) (by omega) hpad (by omega)
    unfold parseEntryLoop
    have e1 : encodeRecords (r :: rs) ++ pad ++ rest =
        [r.keys.length % 256, r.keys.length / 256 % 256] ++
          ([r.size / 2 ^ 24 % 256, r.size / 2 ^ 16 % 256, r.size / 2 ^ 8 % 256, r.size % 256] ++
            (r.hash ++ (r.keys.foldr (fun k acc => k ++ acc) [] ++
              (encodeRecords rs ++ pad ++ rest)))) := by
      simp only [encodeRecords, encodeRecord, List.append_assoc]
    rw [e1]
    have t1 : ∀ R : List Nat, takeBytes 2
        ([r.keys.length % 256, r.keys.length / 256 % 256] ++ R) =
          some ([r.keys.length % 256, r.keys.length / 256 % 256], R) :=
      fun R => takeBytes_append 2 _ R rfl
    have t2 : ∀ R : List Nat, takeBytes 4
        ([r.size / 2 ^ 24 % 256, r.size / 2 ^ 16 % 256, r.size / 2 ^ 8 % 256, r.size % 256] ++ R) =
          some ([r.size / 2 ^ 24 % 256, r.size / 2 ^ 16 % 256, r.size / 2 ^ 8 % 256,
            r.size % 256], R) :=
      fun R => takeBytes_append 4 _ R rfl
    simp only [hpos, if_true, t1, t2, takeBytes_append hs r.hash _ h4, readLE_u16 _ h2,
      readBE_u32 _ h3, readKeys_join hs r.keys _ h5, show ¬ r.keys.length = 0 by omega, if_false]
    rw [ih]
    simp

theorem parseEntryLoop_fuel (hs : Nat) :
    ∀ (fuel pos : Nat) (bs : List Nat) (files : List FileInfo),
      EntrySize ≤ pos + fuel → parseEntryLoop hs fuel pos bs files ≠ none
  | 0, pos, bs, files, h => by
    unfold parseEntryLoop
    simp [show ¬ pos < EntrySize by omega]
  | fuel + 1, pos, bs, files, h => by
    unfold parseEntryLoop
    by_cases hpos : pos < EntrySize
    · simp only [hpos, if_true]
      split
      · simp
      · split
        · simp
        · split
          · simp
          · split
            · simp
            · split
              · simp
              · exact parseEntryLoop_fuel hs fuel _ _ _ (by omega)
    · simp [hpos]

theorem parseEncodedEntryLoop_fuel (hs : Nat) (profiles : List (List Nat)) :
    ∀ (fuel pos : Nat) (bs : List Nat) (files : List EncodedFileInfo),
      EntrySize ≤ pos + fuel → parseEncodedEntryLoop hs profiles fuel pos bs files ≠ none
  | 0, pos, bs, files, h => by
    unfold parseEncodedEntryLoop
    simp [show ¬ pos < EntrySize by omega]
  | fuel + 1, pos, bs, files, h => by
    unfold parseEncodedEntryLoop
    by_cases hpos : pos < EntrySize
    · simp only [hpos, if_true]
      split
      · simp
      · split
        · simp
        · split
          · simp
          · split
            · simp
            · split
              · split
                · simp
                · exact parseEncodedEntryLoop_fuel hs profiles fuel _ _ _ (by omega)
              · exact parseEncodedEntryLoop_fuel hs profiles fuel _ _ _ (by omega)
    · simp [hpos]

theorem parseEntry_ne_none (c : Crypto) (E : Encoding) (index : Nat) (checksum : Hex) :
    parseEntry c E index checksum ≠ none := by
  unfold parseEntry
  simp only
  split
  · simp
  · split
    · simp
    · exact parseEntryLoop_fuel _ _ _ _ _ (by omega)

theorem parseEncodedEntry_ne_none (c : Crypto) (E : Encoding) (index : Nat) (checksum : Hex) :
    parseEncodedEntry c E index checksum ≠ none := by
  unfold parseEncodedEntry
  simp only
  split
  · simp
  · split
    · simp
    · exact parseEncodedEntryLoop_fuel _ _ _ _ _ _ (by omega)

theorem wellFormedPages_get (hs : Nat) : ∀ (pages : List PageA) (p : Nat) (hp : p < pages.length),
    wellFormedPages hs pages = true →
    wellFormedPage hs pages[p] ((pages[p + 1]?).map PageA.firstKey) = true
  | [], p, hp, _ => by simp at hp
  | q :: rest, 0, _, h => by
    simp only [wellFormedPages, Bool.and_eq_true] at h
    simpa [List.head?_eq_getElem?] using h.1
  | q :: rest, p + 1, hp, h => by
    simp only [wellFormedPages, Bool.and_eq_true] at h
    have := wellFormedPages_get hs rest p (by simpa using hp) h.2
    simpa using this

theorem wellFormedPage_iff (hs : Nat) (p : PageA) (next : Option Hex) :
    wellFormedPage hs p next = true ↔
      p.bytes.length = EntrySize ∧ (p.padding = [] ∨ ∃ t, p.padding = 0 :: 0 :: t) ∧
        ∀ r ∈ p.records, validRecord hs r = true ∧ hexLe p.firstKey r.hash = true ∧
          ∀ nk, next = some nk → hexLe nk r.hash = false := by
  have hpad : (p.padding.isEmpty || p.padding.take 2 == [0, 0]) = true ↔
      (p.padding = [] ∨ ∃ t, p.padding = 0 :: 0 :: t) := by
    rcases p.padding with _ | ⟨a, _ | ⟨b, t⟩⟩ <;> simp
  simp only [wellFormedPage, Bool.and_eq_true, decide_eq_true_eq, hpad, List.all_eq_true]
  constructor
  · rintro ⟨⟨h1, h2⟩, h3⟩
    refine ⟨h1, h2, fun r hr => ?_⟩
    obtain ⟨⟨h4, h5⟩, h6⟩ := h3 r hr
    refine ⟨h4, h5, fun nk hnk => ?_⟩
    subst hnk
    simpa using h6
  · rintro ⟨h1, h2, h3⟩
    refine ⟨⟨h1, h2⟩, fun r hr => ?_⟩
    obtain ⟨h4, h5, h6⟩ := h3 r hr
    refine ⟨⟨h4, h5⟩, ?_⟩
    cases next with
    | none => rfl
    | some nk => simpa using h6 nk rfl

theorem tableBytes_drop : ∀ (pages : List PageA) (p : Nat) (hp : p < pages.length),
    (∀ q ∈ pages, q.bytes.length = EntrySize) →
    (tableBytes pages).drop (EntrySize * p) = pages[p].bytes ++ tableBytes (pages.drop (p + 1))
  | [], p, hp, _ => by simp at hp
  | q :: rest, 0, _, _ => by simp [tableBytes]
  | q :: rest, p + 1, hp, h => by
    have hq : q.bytes.length = EntrySize := h q (List.mem_cons_self _ _)
    have ih := tableBytes_drop rest p (by simpa using hp)
      (fun x hx => h x (List.mem_cons_of_mem _ hx))
    have e : EntrySize * (p + 1) = q.bytes.length + EntrySize * p := by rw [hq, Nat.mul_succ]; omega
    simp only [tableBytes, e, List.drop_append, List.getElem_cons_succ, List.drop_succ_cons]
    exact ih

theorem parseEntry_wellFormed (c : Crypto) (E : Encoding) (pages : List PageA)
    (hT : E.tableA = tableBytes pages) (hN : pages.length ≤ 2 ^ 20)
    (hwf : wellFormedPages E.hashSizeA pages = true) (p : Nat) (hp : p < pages.length) :
    parseEntry c E p (c.md5 pages[p].bytes) = some (.ok pages[p].records) := by
  have hall : ∀ q ∈ pages, q.bytes.length = EntrySize := by
    intro q hq
    obtain ⟨j, hj, rfl⟩ := List.getElem_of_mem hq
    exact ((wellFormedPage_iff _ _ _).mp (wellFormedPages_get _ pages j hj hwf)).1
  obtain ⟨hlen, hpad, hrec⟩ := (wellFormedPage_iff _ _ _).mp (wellFormedPages_get _ pages p hp hwf)
  have hoff : pageOffset p = EntrySize * p := by
    unfold pageOffset EntrySize
    exact Nat.mod_eq_of_lt (by omega)
  have hdrop := tableBytes_drop pages p hp hall
  unfold parseEntry
  simp only [hoff, hT, hdrop, takeBytes_append EntrySize _ _ hlen, ne_eq, not_true_eq_false,
    if_false]
  have hl : 0 + (encodeRecords pages[p].records).length + pages[p].padding.length = EntrySize := by
    simpa [PageA.bytes] using hlen
  have := parseEntryLoop_records E.hashSizeA pages[p].records EntrySize 0 pages[p].padding
    (tableBytes (pages.drop (p + 1))) [] (fun r hr => (hrec r hr).1) hl hpad (by omega)
  simpa [PageA.bytes] using this

theorem fileHeaders_get (c : Crypto) (pages : List PageA) (p : Nat) (hp : p < pages.length)
    (hp2 : p < (fileHeaders c pages).length) :
    (fileHeaders c pages)[p] = (pages[p].firstKey, c.md5 pages[p].bytes) := by
  simp [fileHeaders]

/-- C2 (exact match). In a well-formed table A (headers non-decreasing, header
checksum the digest of the page, records densely packed, every record hash at
least the first key of its page and below that of the next page), looking up
the hash of any stored record succeeds, and the result has that very hash and
is the first record of the page with it. -/
theorem findFileInfo_exact (c : Crypto) (E : Encoding) (pages : List PageA)
    (hH : E.headersA = (fileHeaders c pages).reverse)
    (hT : E.tableA = tableBytes pages)
    (hN : pages.length ≤ 2 ^ 20)
    (hsorted : nonDecreasing (fileHeaders c pages) = true)
    (hwf : wellFormedPages E.hashSizeA pages = true)
    (p : Nat) (hp : p < pages.length) (r : FileInfo) (hr : r ∈ pages[p].records) :
    ∃ f, findFileInfo c E r.hash = some (.ok f) ∧ f.hash = r.hash ∧
      pages[p].records.find? (fun x => x.hash == r.hash) = some f := by
  have hlenH : (fileHeaders c pages).length = pages.length := by simp [fileHeaders]
  obtain ⟨_, _, hrec⟩ := (wellFormedPage_iff _ _ _).mp (wellFormedPages_get _ pages p hp hwf)
  obtain ⟨_, hge, hlt⟩ := hrec r hr
  obtain ⟨i, hi, hfloor, hscan⟩ := floor_index (fileHeaders c pages) r.hash hsorted
    ⟨by omega, by
      have h0 := sorted_mono (fileHeaders c pages) hsorted 0 p (Nat.zero_le _) (by omega)
      rw [fileHeaders_get c pages p hp (by omega)] at h0
      exact hexLe_trans _ _ _ h0 hge⟩
  have hpi : p ≤ i := (hfloor p (by omega)).mp (by
    rw [fileHeaders_get c pages p hp (by omega)]; exact hge)
  have hip : i = p := by
    by_contra hne
    have hp1 : p + 1 < pages.length := by omega
    have h1 := (hfloor (p + 1) (by omega)).mpr (by omega)
    rw [fileHeaders_get c pages (p + 1) hp1 (by omega)] at h1
    have h2 := hlt pages[p + 1].firstKey (by simp [List.getElem?_eq_getElem hp1])
    rw [h1] at h2
    exact Bool.noConfusion h2
  subst hip
  have hne : ¬ toInt32 i = -1 := by
    rw [toInt32_eq_neg_one]
    have : i % 2 ^ 32 = i := Nat.mod_eq_of_lt (by omega)
    omega
  have hu : intToU32 (toInt32 i) = i := by
    rw [intToU32_toInt32]; exact Nat.mod_eq_of_lt (by omega)
  have hparse := parseEntry_wellFormed c E pages hT hN hwf i hp
  have hfind : ∃ f, pages[i].records.find? (fun x => x.hash == r.hash) = some f := by
    cases hf : pages[i].records.find? (fun x => x.hash == r.hash) with
    | some f => exact ⟨f, rfl⟩
    | none =>
      have := List.find?_eq_none.mp hf r hr
      simp at this
  obtain ⟨f, hf⟩ := hfind
  refine ⟨f, ?_, ?_, hf⟩
  · simp only [findFileInfo, hH, List.length_reverse, hlenH]
    rw [hlenH] at hscan
    simp only [hscan, hne, if_false, hu, fileHeaders_get c pages i hp (by omega), hparse,
      searchFiles, hf]
  · have := List.find?_some hf
    simpa using this

/-! ## Point queries -/

/-- C1 (floor search). When the page headers stand in the file in non-decreasing
first-key order and the query `k` is at least the first key of page 0, there is
a file-order index `i` such that a page's first key is `<= k` exactly for the
pages `j <= i` (so `i` is the greatest such index), and `findFileInfo` on table
A, `findEncodedFileInfo` on table B, decode page `i` with the checksum of header
`i`: the scan of the reversed vector and `size - 1 - j` select that page. Up to
`2^20` pages the byte offset of page `i` is `4096 * i`. -/
theorem findFileInfo_floor (c : Crypto) (E : Encoding) (hs : List (Hex × Hex)) (k : Hex)
    (hsize : hs.length < 2 ^ 32)
    (hsorted : nonDecreasing hs = true)
    (hk : ∃ h0 : 0 < hs.length, hexLe (hs[0]).1 k = true) :
    ∃ i, ∃ hi : i < hs.length,
      (∀ j (hj : j < hs.length), hexLe (hs[j]).1 k = true ↔ j ≤ i) ∧
      (hs.length ≤ 2 ^ 20 → pageOffset i = EntrySize * i) ∧
      (E.headersA = hs.reverse →
        findFileInfo c E k = searchFiles k (parseEntry c E i (hs[i]).2)) ∧
      (E.headersB = hs.reverse →
        findEncodedFileInfo c E k =
          searchEncodedFiles k (parseEncodedEntry c E i (hs[i]).2)) := by
  obtain ⟨i, hi, hfloor, hscan⟩ := floor_index hs k hsorted hk
  have hne : ¬ toInt32 i = -1 := by
    rw [toInt32_eq_neg_one]
    have : i % 2 ^ 32 = i := Nat.mod_eq_of_lt (by omega)
    omega
  have hu : intToU32 (toInt32 i) = i := by
    rw [intToU32_toInt32]; exact Nat.mod_eq_of_lt (by omega)
  refine ⟨i, hi, hfloor, ?_, ?_, ?_⟩
  · intro h20
    unfold pageOffset EntrySize
    exact Nat.mod_eq_of_lt (by omega)
  · intro hA
    simp only [findFileInfo, hA, List.length_reverse, hscan, hne, if_false, hu]
  · intro hB
    simp only [findEncodedFileInfo, hB, List.length_reverse, hscan, hne, if_false, hu]

/-- Instance of C1: two pages with first keys `0x00..01` and `0x00..09`, query
`0x00..05`. -/
theorem findFileInfo_floor_witness :
    ∃ i, ∃ hi : i < twoHeaders.length,
      (∀ j (hj : j < twoHeaders.length), hexLe (twoHeaders[j]).1 (hx 5) = true ↔ j ≤ i) ∧
      pageOffset i = EntrySize * i ∧
      findFileInfo toyCrypto twoHeaderTable (hx 5) =
        searchFiles (hx 5) (parseEntry toyCrypto twoHeaderTable i (twoHeaders[i]).2) ∧
      findEncodedFileInfo toyCrypto twoHeaderTable (hx 5) =
        searchEncodedFiles (hx 5)
          (parseEncodedEntry toyCrypto twoHeaderTable i (twoHeaders[i]).2) :=
  match findFileInfo_floor toyCrypto twoHeaderTable twoHeaders (hx 5) (by decide) (by decide)
    ⟨by decide, by decide⟩ with
  | ⟨i, hi, h1, h2, h3, h4⟩ => ⟨i, hi, h1, h2 (by decide), h3 rfl, h4 rfl⟩

/-- Instance of C2: the scenario table, queried with `0x00..01`; the result is
the first record, with its one key. -/
theorem findFileInfo_exact_witness :
    (∃ f, findFileInfo toyCrypto scenarioTable (hx 1) = some (.ok f) ∧ f.hash = hx 1 ∧
      scenarioPage.records.find? (fun x => x.hash == hx 1) = some f) ∧
    findFileInfo toyCrypto scenarioTable (hx 1) =
      some (.ok { hash := hx 1, size := 7, keys := [hx 0xAA] }) :=
  ⟨findFileInfo_exact toyCrypto scenarioTable [scenarioPage] rfl rfl (by decide) (by decide!)
    (by decide!) 0 (by decide) { hash := hx 1, size := 7, keys := [hx 0xAA] } (by decide),
   by decide!⟩

/-- C4 (key below every page). When every header of the table has a first key
above the query (in particular when the table has no page), `findFileInfo`
fails with `HashDoesNotExistException` and `findEncodedFileInfo` with the
different `KeyDoesNotExistException`, whatever the page data and the digest
function are: no page is decoded or verified. -/
theorem find_below (c : Crypto) (E : Encoding) (k : Hex) :
    ((∀ h ∈ E.headersA, hexLe h.1 k = false) →
      findFileInfo c E k = some (.error (.hashDoesNotExist k))) ∧
    ((∀ h ∈ E.headersB, hexLe h.1 k = false) →
      findEncodedFileInfo c E k = some (.error (.keyDoesNotExist k))) ∧
    Error.hashDoesNotExist k ≠ Error.keyDoesNotExist k := by
  refine ⟨fun hA => ?_, fun hB => ?_, fun h => Error.noConfusion h⟩
  · simp [findFileInfo, scanHeaders_miss _ k E.headersA 0 hA]
  · simp [findEncodedFileInfo, scanHeaders_miss _ k E.headersB 0 hB]

/-- Instance of C4: the scenario table queried with `0x00..00` on table A, and
with the empty key on table B. -/
theorem find_below_witness :
    findFileInfo toyCrypto scenarioTable (hx 0) = some (.error (.hashDoesNotExist (hx 0))) ∧
    findEncodedFileInfo toyCrypto scenarioTable [] = some (.error (.keyDoesNotExist [])) :=
  ⟨(find_below toyCrypto scenarioTable (hx 0)).1 (by decide),
   (find_below toyCrypto scenarioTable []).2.1 (by decide)⟩

/-- C5 (page checksum verification). Let page `i` be the floor page of the query
and let the digest of its 4096 bytes differ from the checksum of header `i`.
Then the point query fails with `InvalidHashException` (built from the expected
and the actual digest), whatever the page holds: no record is parsed. -/
theorem find_checksum_mismatch (c : Crypto) (E : Encoding) (hs : List (Hex × Hex)) (k : Hex)
    (i : Nat) (hi : i < hs.length) (hsize : hs.length ≤ 2 ^ 20)
    (hle : hexLe (hs[i]).1 k = true)
    (hgt : ∀ j (hj : j < hs.length), i < j → hexLe (hs[j]).1 k = false) :
    (∀ page rest, E.headersA = hs.reverse →
      takeBytes EntrySize (E.tableA.drop (EntrySize * i)) = some (page, rest) →
      c.md5 page ≠ (hs[i]).2 →
      findFileInfo c E k =
        some (.error (.invalidHash (c.lookup3 (hs[i]).2 0) (c.lookup3 (c.md5 page) 0)))) ∧
    (∀ page rest, E.headersB = hs.reverse →
      takeBytes EntrySize (E.tableB.drop (EntrySize * i)) = some (page, rest) →
      c.md5 page ≠ (hs[i]).2 →
      findEncodedFileInfo c E k =
        some (.error (.invalidHash (c.lookup3 (hs[i]).2 0) (c.lookup3 (c.md5 page) 0)))) := by
  have hscan := scanHeaders_reverse hs k i hi hle hgt
  obtain ⟨hne, hu⟩ := index_roundtrip i hs.length hi (by omega)
  have hoff : pageOffset i = EntrySize * i := by
    unfold pageOffset EntrySize
    exact Nat.mod_eq_of_lt (by omega)
  constructor
  · intro page rest hA hpage hbad
    simp only [findFileInfo, hA, List.length_reverse, hscan, hne, if_false, hu, parseEntry,
      hoff, hpage, ne_eq, hbad, not_false_eq_true, if_true, searchFiles]
  · intro page rest hB hpage hbad
    simp only [findEncodedFileInfo, hB, List.length_reverse, hscan, hne, if_false, hu,
      parseEncodedEntry, hoff, hpage, ne_eq, hbad, not_false_eq_true, if_true,
      searchEncodedFiles]

/-- Instance of C5: the corrupted scenario table, queried with the hash
`0x00..01`, which a record of the corrupted page still carries, and its table B. -/
theorem find_checksum_mismatch_witness :
    parseEntryLoop 16 EntrySize 0 corruptTable.tableA [] = some (.ok scenarioPage.records) ∧
    findFileInfo toyCrypto corruptTable (hx 1) =
      some (.error (.invalidHash (toyCrypto.lookup3 (toyCrypto.md5 scenarioPage.bytes) 0)
        (toyCrypto.lookup3 (toyCrypto.md5 corruptTable.tableA) 0))) ∧
    findEncodedFileInfo toyCrypto corruptTable scenarioKey7 =
      some (.error (.invalidHash
        (toyCrypto.lookup3 (toyCrypto.md5 (List.replicate 4096 0)) 0)
        (toyCrypto.lookup3 (toyCrypto.md5 corruptTable.tableB) 0))) :=
  ⟨by decide!,
   (find_checksum_mismatch toyCrypto corruptTable (fileHeaders toyCrypto [scenarioPage]) (hx 1) 0
      (by decide) (by decide) (by decide!)
      (fun j hj hij => absurd (show j < 1 from hj) (by omega))).1
      corruptTable.tableA [] rfl (by decide!) (by decide!),
   (find_checksum_mismatch toyCrypto corruptTable zeroHeadersB scenarioKey7 0
      (by decide) (by decide) (by decide!)
      (fun j hj hij => absurd (show j < 1 from hj) (by omega))).2
      corruptTable.tableB [] rfl (by decide!) (by decide!)⟩

/-! ## The stream parser -/

theorem parseProfiles_error (bound : Nat) :
    ∀ (fuel : Nat) (s : IStream) (ps : List (List Nat)) (e : Error) (s2 : IStream),
      parseProfiles bound fuel s ps = (some (.error e), s2) → e = .streamFault
  | 0, s, ps, e, s2, h => by
    simp only [parseProfiles] at h
    split at h <;> simp at h
  | fuel + 1, s, ps, e, s2, h => by
    simp only [parseProfiles] at h
    split at h
    · split at h
      · simp only [Prod.mk.injEq, Option.some.injEq, Except.error.injEq] at h
        exact h.1.symm
      · exact parseProfiles_error bound fuel _ _ e s2 h
    · simp at h

theorem parseAfterSignature_error (s : IStream) (e : Error) (s2 : IStream)
    (h : parseAfterSignature s = (some (.error e), s2)) :
    e = .streamFault ∨ e = .undefinedBehaviour := by
  unfold parseAfterSignature at h
  split at h
  · simp only [Prod.mk.injEq, Option.some.injEq, Except.error.injEq] at h
    exact Or.inr h.1.symm
  split at h
  · simp only [Prod.mk.injEq, Option.some.injEq, Except.error.injEq] at h
    exact Or.inr h.1.symm
  split at h
  · simp only [Prod.mk.injEq, Option.some.injEq, Except.error.injEq] at h
    exact Or.inr h.1.symm
  split at h
  · simp only [Prod.mk.injEq, Option.some.injEq, Except.error.injEq] at h
    exact Or.inr h.1.symm
  split at h
  · simp only [Prod.mk.injEq, Option.some.injEq, Except.error.injEq] at h
    exact Or.inr h.1.symm
  simp only at h
  split at h
  · simp at h
  · rename_i heq
    simp only [Prod.mk.injEq, Option.some.injEq, Except.error.injEq] at h
    obtain ⟨rfl, rfl⟩ := h
    exact Or.inl (parseProfiles_error _ _ _ _ _ _ heq)
  · simp at h

theorem read_open (data : List Nat) (n : Nat) (h : n ≤ data.length) :
    Encoding.read n (IStream.open data) =
      (some (data.take n), { data := data, pos := n, eofbit := false, failbit := false }) := by
  simp [Encoding.read, IStream.read, IStream.open, IStream.good, h]

/-- C6 (signature check). On a stream of at least two bytes, `parse` fails with
`InvalidSignatureException` exactly when the first two bytes, read as a
little-endian u16, differ from `0x4E45`; and when it does, the stream is left
behind at position 2 in good state: nothing behind the signature was read. -/
theorem parse_signature (data : List Nat) (h2 : 2 ≤ data.length) :
    ((∃ a b s, parse (IStream.open data) = (some (.error (.invalidSignature a b)), s)) ↔
      readLE (data.take 2) ≠ 0x4E45) ∧
    (readLE (data.take 2) ≠ 0x4E45 →
      parse (IStream.open data) =
        (some (.error (.invalidSignature (readLE (data.take 2)) 0x4E45)),
          { data := data, pos := 2, eofbit := false, failbit := false })) := by
  have hfail : readLE (data.take 2) ≠ 0x4E45 →
      parse (IStream.open data) =
        (some (.error (.invalidSignature (readLE (data.take 2)) 0x4E45)),
          { data := data, pos := 2, eofbit := false, failbit := false }) := by
    intro hne
    simp only [parse, read_open data 2 h2, Signature, ne_eq, hne, not_false_eq_true,
      if_true]
  refine ⟨⟨?_, fun hne => ⟨_, _, _, hfail hne⟩⟩, hfail⟩
  rintro ⟨a, b, s, h⟩ heq
  simp only [parse, read_open data 2 h2, Signature, ne_eq, heq, not_true_eq_false,
    if_false] at h
  rcases parseAfterSignature_error _ _ _ h with h3 | h3 <;> exact Error.noConfusion h3

/-- Instance of C6: a stream whose signature bytes are `0x0000`. -/
theorem parse_signature_witness :
    parse (IStream.open zeroSignatureStream) =
      (some (.error (.invalidSignature 0 0x4E45)),
        { data := zeroSignatureStream, pos := 2, eofbit := false, failbit := false }) :=
  (parse_signature zeroSignatureStream (by decide)).2 (by decide)

/-- C7, the code at a short stream: the stream announces one table-A page and
ends three bytes into its 4096 bytes (57 bytes where the layout needs 4150 and
the closing string); `parse` throws nothing and builds a table whose page is
filled up with zero bytes. -/
theorem parse_truncated :
    truncatedStream.length = 57 ∧
    (parse (IStream.open truncatedStream)).1 =
      some (.ok { headersA := [(hx 1, hx 2)], tableA := [1, 2, 3] ++ List.replicate 4093 0,
                  hashSizeA := 16, headersB := [], tableB := [], hashSizeB := 16,
                  profiles := [[]] }) := by
  decide!

/-! ## Range queries -/

/-- C10, the code at `listEncodedFileInfo(0, 1)` on a table B whose page holds
256 records: `list.size() - count` is `0 - 1` in `size_t`, that is `2^64 - 1`,
so the take size is 256, not `min(1 - 0, 256) = 1`, and the insert of line 195
is entered with all 256 records of the page. -/
theorem listEncodedFileInfo_wrap :
    remainingB 0 1 = 2 ^ 64 - 1 ∧
    takeSizeB 0 1 256 = 256 ∧
    min (1 - 0) 256 = 1 ∧
    parseEncodedEntry toyCrypto scenarioTable 0 (toyCrypto.md5 (List.replicate 4096 0)) =
      some (.ok (List.replicate 256 { key := List.replicate 7 0, size := 0, params := [] })) ∧
    listEncodedFileInfo toyCrypto scenarioTable 1 0 1 = some (.error .undefinedBehaviour) := by
  decide!

/-! ## The chunk handlers -/

theorem needsInflate_iff (h : ZlibHandler) (offset : Int) (outSize : Nat)
    (h0 : 0 ≤ offset) (hle : offset ≤ (h.avail_out : Int)) (ha : h.avail_out < 2 ^ 64)
    (ho : outSize < 2 ^ 64) :
    h.needsInflate offset outSize = true ↔ (h.avail_out : Int) < offset + outSize := by
  unfold ZlibHandler.needsInflate
  rw [decide_eq_true_iff, Nat.mod_eq_of_lt ho]
  have h1 : ((h.avail_out : Int) - offset) % 2 ^ 64 = (h.avail_out : Int) - offset :=
    Int.emod_eq_of_lt (by omega) (by omega)
  rw [h1]
  omega

theorem zlib_cached_call (inflate : List Nat → List Nat) (cache : List Nat) (buf : FileBuf)
    (offset : Int) (inSize outSize : Nat) (chunkSize : Int)
    (h0 : 0 ≤ offset) (hin : offset.toNat + outSize ≤ cache.length)
    (hc : cache.length < 2 ^ 64) :
    ZlibHandler.buffer inflate { out := some cache, avail_out := cache.length } buf offset
        inSize outSize chunkSize =
      { bytes := .ok ((cache.drop offset.toNat).take outSize),
        handler := { out := some cache, avail_out := cache.length },
        buf := buf, chunkSize := chunkSize } := by
  have hn : ZlibHandler.needsInflate { out := some cache, avail_out := cache.length }
      offset outSize = false := by
    cases hv : ZlibHandler.needsInflate { out := some cache, avail_out := cache.length }
      offset outSize
    · rfl
    · have := (needsInflate_iff _ offset outSize h0 (by simp only; omega) hc (by omega)).mp hv
      simp only at this
      omega
  simp only [ZlibHandler.buffer, hn, Bool.false_eq_true, if_false, ZlibHandler.copyOut,
    Option.getD_some, h0, hin, and_self, if_true]

/-- C11, the code at two consecutive calls `buffer(offset = 5, inSize = 5,
outSize = 10)` on a fresh handler and a file that holds the chunk: the chunk
inflates to 20 bytes, so bytes `[5, 15)` are asked for; neither call inflates,
`out` stays the null pointer and both copies read outside it. With `offset = 0`
the same two calls return bytes `[0, 10)` of the inflated chunk. -/
theorem zlib_twice_offset :
    (toyInflate chunkFile.data).length = 20 ∧
    (ZlibHandler.buffer toyInflate ZlibHandler.fresh chunkFile 5 5 10 0).bytes =
      .error .undefinedBehaviour ∧
    (ZlibHandler.buffer toyInflate
        (ZlibHandler.buffer toyInflate ZlibHandler.fresh chunkFile 5 5 10 0).handler
        (ZlibHandler.buffer toyInflate ZlibHandler.fresh chunkFile 5 5 10 0).buf 5 5 10
        (ZlibHandler.buffer toyInflate ZlibHandler.fresh chunkFile 5 5 10 0).chunkSize).bytes =
      .error .undefinedBehaviour ∧
    (ZlibHandler.buffer toyInflate ZlibHandler.fresh chunkFile 0 5 10 0).bytes =
      .ok (((toyInflate chunkFile.data).drop 0).take 10) ∧
    (ZlibHandler.buffer toyInflate
        (ZlibHandler.buffer toyInflate ZlibHandler.fresh chunkFile 0 5 10 0).handler
        (ZlibHandler.buffer toyInflate ZlibHandler.fresh chunkFile 0 5 10 0).buf 0 5 10
        (ZlibHandler.buffer toyInflate ZlibHandler.fresh chunkFile 0 5 10 0).chunkSize).bytes =
      .ok (((toyInflate chunkFile.data).drop 0).take 10) := by
  decide!

/-- C12, the code at the first call `buffer(offset = 5, inSize = 5, outSize =
10)` of a fresh handler (`avail_out = 0`): `avail_out - offset` is `0 - 5` in
64-bit unsigned arithmetic, `2^64 - 5`, which is not below 10, so the test of
line 88 fails although `0 < 5 + 10`: nothing is read from the file, nothing is
inflated, and the copy of line 99 starts at the null pointer. -/
theorem zlib_first_call_wrap :
    ZlibHandler.fresh.avail_out = 0 ∧
    ZlibHandler.needsInflate ZlibHandler.fresh 5 10 = false ∧
    ZlibHandler.buffer toyInflate ZlibHandler.fresh chunkFile 5 5 10 0 =
      { bytes := .error .undefinedBehaviour, handler := ZlibHandler.fresh, buf := chunkFile,
        chunkSize := 0 } := by
  decide!

/-- C13 (raw handler). For a relative offset `>= 0`, `DefaultHandler::buffer`
returns exactly the `outSize` bytes at positions `[p + offset, p + offset +
outSize)` of the file when the file holds that many bytes from `p + offset` on,
and the null pointer when it holds fewer. -/
theorem DefaultHandler_buffer_exact (buf : FileBuf) (offset : Int) (inSize outSize : Nat)
    (h0 : 0 ≤ offset) :
    (outSize ≤ buf.data.length - (buf.pos + offset.toNat) →
      (DefaultHandler.buffer buf offset inSize outSize).1 =
          some ((buf.data.drop (buf.pos + offset.toNat)).take outSize) ∧
        ((buf.data.drop (buf.pos + offset.toNat)).take outSize).length = outSize) ∧
    (buf.data.length - (buf.pos + offset.toNat) < outSize →
      (DefaultHandler.buffer buf offset inSize outSize).1 = none) := by
  have hpos : (if offset > 0 then buf.pubseekoff offset else buf) =
      { buf with pos := buf.pos + offset.toNat } := by
    by_cases hz : offset > 0
    · simp only [hz, if_true, FileBuf.pubseekoff]
      congr 1
      omega
    · have : offset = 0 := by omega
      subst this
      simp
  have hlen : ((buf.data.drop (buf.pos + offset.toNat)).take outSize).length =
      min outSize (buf.data.length - (buf.pos + offset.toNat)) := by
    simp [List.length_take, List.length_drop]
  constructor
  · intro hle
    have hl : ((buf.data.drop (buf.pos + offset.toNat)).take outSize).length = outSize := by
      rw [hlen]; omega
    refine ⟨?_, hl⟩
    simp only [DefaultHandler.buffer, hpos, FileBuf.sgetn, hl, if_true]
  · intro hlt
    have hl : ¬ ((buf.data.drop (buf.pos + offset.toNat)).take outSize).length = outSize := by
      rw [hlen]; omega
    simp only [DefaultHandler.buffer, hpos, FileBuf.sgetn, hl, if_false]

/-- Instance of C13: a file of five bytes read at position 0 with offset 1,
three bytes wanted, then five. -/
theorem DefaultHandler_buffer_exact_witness :
    (DefaultHandler.buffer chunkFile 1 0 3).1 = some [8, 7, 6] ∧
    (DefaultHandler.buffer chunkFile 1 0 5).1 = none :=
  ⟨((DefaultHandler_buffer_exact chunkFile 1 0 3 (by decide)).1 (by decide)).1,
   (DefaultHandler_buffer_exact chunkFile 1 0 5 (by decide)).2 (by decide)⟩

theorem takeBytes_drop (n m : Nat) (bs : List Nat) (h : m + n ≤ bs.length) :
    takeBytes n (bs.drop m) = some ((bs.drop m).take n, bs.drop (m + n)) := by
  have hl : n ≤ (bs.drop m).length := by rw [List.length_drop]; omega
  simp only [takeBytes, hl, if_true, List.drop_drop]

theorem parseEncodedEntryLoop_slots (hs : Nat) (profiles : List (List Nat)) (bs : List Nat) :
    ∀ (k j0 pos fuel : Nat) (files : List EncodedFileInfo),
      pos = j0 * (hs + 9) →
      pos + k * (hs + 9) ≤ bs.length →
      (∀ j, j0 ≤ j → j < j0 + k →
        slotProfileIndex hs bs j < 0 ∨ (slotProfileIndex hs bs j).toNat < profiles.length) →
      (∀ j, j0 ≤ j → j < j0 + k → j * (hs + 9) < EntrySize) →
      EntrySize ≤ pos + k * (hs + 9) →
      EntrySize ≤ pos + fuel →
      parseEncodedEntryLoop hs profiles fuel pos (bs.drop pos) files =
        some (.ok (files ++ (List.range' j0 k).map (slotRecord hs profiles bs)))
  | 0, j0, pos, fuel, files, _, _, _, _, hend, _ => by
    unfold parseEncodedEntryLoop
    simp [show ¬ pos < EntrySize by omega]
  | k + 1, j0, pos, fuel, files, hpos, hlen, hvalid, hin, hend, hfuel => by
    have hw : (k + 1) * (hs + 9) = k * (hs + 9) + (hs + 9) := Nat.succ_mul _ _
    have hlt : pos < EntrySize := by
      have := hin j0 (Nat.le_refl _) (by omega)
      omega
    obtain ⟨fuel2, rfl⟩ : ∃ f2, fuel = f2 + 1 := ⟨fuel - 1, by omega⟩
    have hpos2 : pos + hs + 4 + 1 + 4 = (j0 + 1) * (hs + 9) := by
      rw [Nat.succ_mul]; omega
    have ih := parseEncodedEntryLoop_slots hs profiles bs k (j0 + 1) (pos + hs + 4 + 1 + 4) fuel2
      (files ++ [slotRecord hs profiles bs j0]) hpos2 (by omega)
      (fun j h1 h2 => hvalid j (by omega) (by omega))
      (fun j h1 h2 => hin j (by omega) (by omega)) (by omega) (by omega)
    have t1 := takeBytes_drop hs pos bs (by omega)
    have t2 := takeBytes_drop 4 (pos + hs) bs (by omega)
    have t3 := takeBytes_drop 1 (pos + hs + 4) bs (by omega)
    have t4 := takeBytes_drop 4 (pos + hs + 4 + 1) bs (by omega)
    have hpi : toInt32 (readBE ((bs.drop (pos + hs)).take 4)) = slotProfileIndex hs bs j0 := by
      simp only [slotProfileIndex, hpos]
    have hsz : readBE ((bs.drop (pos + hs + 4 + 1)).take 4) =
        readBE ((bs.drop (j0 * (hs + 9) + hs + 5)).take 4) := by
      rw [hpos]
    have hkey : (bs.drop pos).take hs = (bs.drop (j0 * (hs + 9))).take hs := by rw [hpos]
    have hnegrec : slotProfileIndex hs bs j0 < 0 →
        EncodedFileInfo.mk ((bs.drop pos).take hs)
          (readBE ((bs.drop (pos + hs + 4 + 1)).take 4)) [] = slotRecord hs profiles bs j0 := by
      intro hneg
      simp only [slotRecord, hneg, if_true, hsz, hkey]
    have hposrec : 0 ≤ slotProfileIndex hs bs j0 →
        EncodedFileInfo.mk ((bs.drop pos).take hs)
          (readBE ((bs.drop (pos + hs + 4 + 1)).take 4))
          (profiles.getD (slotProfileIndex hs bs j0).toNat []) =
            slotRecord hs profiles bs j0 := by
      intro hnn
      simp only [slotRecord, show ¬ slotProfileIndex hs bs j0 < 0 by omega, if_false, hsz, hkey]
    unfold parseEncodedEntryLoop
    simp only [hlt, if_true, t1, t2, t3, t4, hpi]
    by_cases h0 : 0 ≤ slotProfileIndex hs bs j0
    · have hin2 : (slotProfileIndex hs bs j0).toNat < profiles.length := by
        rcases hvalid j0 (Nat.le_refl _) (by omega) with hneg | hin2
        · omega
        · exact hin2
      have hget : profiles.get? (slotProfileIndex hs bs j0).toNat =
          some (profiles.getD (slotProfileIndex hs bs j0).toNat []) := by
        simp [List.getD_eq_getElem?_getD, List.getElem?_eq_getElem hin2]
      simp only [h0, if_true, hget, hposrec h0]
      rw [ih]
      simp [List.range'_succ]
    · simp only [h0, if_false, hnegrec (by omega)]
      rw [ih]
      simp [List.range'_succ]

theorem slotCount_spec (hs : Nat) :
    EntrySize ≤ slotCount hs * (hs + 9) ∧
    ∀ j, j < slotCount hs → j * (hs + 9) < EntrySize := by
  unfold slotCount
  have hw : 0 < hs + 9 := by omega
  constructor
  · have h1 := Nat.div_add_mod (EntrySize + hs + 8) (hs + 9)
    have h2 := Nat.mod_lt (EntrySize + hs + 8) hw
    rw [Nat.mul_comm] at h1
    omega
  · intro j hj
    have h1 : (j + 1) * (hs + 9) ≤ EntrySize + hs + 8 := by
      have := (Nat.le_div_iff_mul_le hw).mp (Nat.succ_le_of_lt hj)
      exact this
    rw [Nat.succ_mul] at h1
    omega

/-! ## Table B: records of a page -/

/-- C14, the code at a page whose first record has `profileIndex = 1` while the
profile table has one entry: `profiles[1]` is read outside the vector; neither
the point query nor the range query throws an exception for it. -/
theorem profile_index_unchecked :
    badProfileTable.profiles.length = 1 ∧
    toInt32 (readBE ((badProfilePage.drop 7).take 4)) = 1 ∧
    toyCrypto.md5 ((badProfileTable.tableB.drop 0).take 4096) =
      toyCrypto.md5 badProfilePage ∧
    findEncodedFileInfo toyCrypto badProfileTable (List.replicate 7 0) =
      some (.error .undefinedBehaviour) ∧
    listEncodedFileInfo toyCrypto badProfileTable 1 0 1 = some (.error .undefinedBehaviour) := by
  decide!

/-- C18, the code at page 0 of a two-page table B with `hashSizeB = 16`: the page
passes its checksum and decodes to 164 records, not `4096 / 25 = 163`; the last
one starts at byte 4075 and takes its size, 42, from the first four bytes of
page 1. -/
theorem parseEncodedEntry_overrun :
    4096 / (wideKeyTable.hashSizeB + 9) = 163 ∧
    parseEncodedEntry toyCrypto wideKeyTable 0 (toyCrypto.md5 (List.replicate 4096 0)) =
      some (.ok (List.replicate 163 (wideKeyRecord 0) ++ [wideKeyRecord 42])) ∧
    (List.replicate 163 (wideKeyRecord 0) ++ [wideKeyRecord 42]).length = 164 ∧
    readBE ((wideKeyTable.tableB.drop 4096).take 4) = 42 := by
  decide!

/-- C17, the code at the last page of a table B with `hashSizeB = 16` (records of
25 bytes): the page passes its checksum and its 163 complete slots end at byte
4075; line 300 tests only `it < end`, so a 164th record is begun, whose size
field lies at bytes 4096..4099 of the page, behind the last byte of `tableB`.
The read is outside the vector: the page query and the point query that leads
to this page have undefined behaviour and produce no record. -/
theorem parseEncodedEntry_last_page :
    wideKeyTable.tableB.length = pageOffset 1 + 4096 ∧
    toyCrypto.md5 ((wideKeyTable.tableB.drop (pageOffset 1)).take EntrySize) =
      toyCrypto.md5 wideKeyPage1 ∧
    4096 / (wideKeyTable.hashSizeB + 9) * (wideKeyTable.hashSizeB + 9) = 4075 ∧
    parseEncodedEntry toyCrypto wideKeyTable 1 (toyCrypto.md5 wideKeyPage1) =
      some (.error .undefinedBehaviour) ∧
    findEncodedFileInfo toyCrypto wideKeyTable (hx 1) = some (.error .undefinedBehaviour) := by
  decide!

/-- C20, the code at `listEncodedFileInfo(0, 1)` on a table B of two different
pages whose headers hold the digests of their own pages: the first pass decodes
page 1 (the last page) against `headersB[1]`, which is the header of page 0,
and the call ends with `InvalidHashException`. -/
theorem listEncodedFileInfo_pairing :
    twoPageTableB.headersB.reverse.map (fun h => h.2) =
      [toyCrypto.md5 ((twoPageTableB.tableB.drop 0).take 4096),
       toyCrypto.md5 ((twoPageTableB.tableB.drop 4096).take 4096)] ∧
    listEncodedFileInfo toyCrypto twoPageTableB 1 0 1 =
      some (.error (.invalidHash
        (toyCrypto.lookup3 (toyCrypto.md5 (List.replicate 4096 0)) 0)
        (toyCrypto.lookup3 (toyCrypto.md5 pairingPage1) 0))) ∧
    toyCrypto.md5 (List.replicate 4096 0) ≠ toyCrypto.md5 pairingPage1 := by
  decide!

/-- Table-B record decoding on a page whose slots lie inside the table data (every
page but the last, or a record width that divides 4096). For such a page that
passes its checksum and whose slots carry a profile index that is negative or
inside the profile table, `parseEncodedEntry` returns one record per slot, and
the record of slot `j` has as key the `hashSizeB` bytes at page offset
`j * (hashSizeB + 9)`, as size the big-endian u32 at bytes
`hashSizeB + 5 .. hashSizeB + 8` of the slot, and as `params` the empty string
when the profile index of the slot is negative and the profile of that index
otherwise. -/
theorem parseEncodedEntry_slots (c : Crypto) (E : Encoding) (index : Nat) (checksum : Hex)
    (hbytes : slotCount E.hashSizeB * (E.hashSizeB + 9) ≤
      (E.tableB.drop (pageOffset index)).length)
    (hsum : c.md5 ((E.tableB.drop (pageOffset index)).take EntrySize) = checksum)
    (hidx : ∀ j, j < slotCount E.hashSizeB →
      slotProfileIndex E.hashSizeB (E.tableB.drop (pageOffset index)) j < 0 ∨
      (slotProfileIndex E.hashSizeB (E.tableB.drop (pageOffset index)) j).toNat <
        E.profiles.length) :
    ∃ files, parseEncodedEntry c E index checksum = some (.ok files) ∧
      files.length = slotCount E.hashSizeB ∧
      ∀ j (hj : j < files.length),
        files[j].key =
          ((E.tableB.drop (pageOffset index)).drop (j * (E.hashSizeB + 9))).take E.hashSizeB ∧
        files[j].size =
          readBE (((E.tableB.drop (pageOffset index)).drop
            (j * (E.hashSizeB + 9) + E.hashSizeB + 5)).take 4) ∧
        (slotProfileIndex E.hashSizeB (E.tableB.drop (pageOffset index)) j < 0 →
          files[j].params = []) ∧
        (0 ≤ slotProfileIndex E.hashSizeB (E.tableB.drop (pageOffset index)) j →
          E.profiles[(slotProfileIndex E.hashSizeB (E.tableB.drop (pageOffset index)) j).toNat]? =
            some files[j].params) := by
  obtain ⟨hend, hin⟩ := slotCount_spec E.hashSizeB
  have hloop := parseEncodedEntryLoop_slots E.hashSizeB E.profiles
    (E.tableB.drop (pageOffset index)) (slotCount E.hashSizeB) 0 0 EntrySize [] (by simp)
    (by simpa using hbytes) (fun j _ h2 => hidx j (by omega))
    (fun j _ h2 => hin j (by omega)) (by simpa using hend) (by omega)
  have hpage : takeBytes EntrySize (E.tableB.drop (pageOffset index)) =
      some ((E.tableB.drop (pageOffset index)).take EntrySize,
        (E.tableB.drop (pageOffset index)).drop EntrySize) := by
    simp only [takeBytes, show EntrySize ≤ (E.tableB.drop (pageOffset index)).length by omega,
      if_true]
  refine ⟨(List.range' 0 (slotCount E.hashSizeB)).map
    (slotRecord E.hashSizeB E.profiles (E.tableB.drop (pageOffset index))), ?_, by simp, ?_⟩
  · simp only [parseEncodedEntry, hpage, hsum, ne_eq, not_true_eq_false, if_false]
    simpa using hloop
  · intro j hj
    have hj2 : j < slotCount E.hashSizeB := by simpa using hj
    simp only [List.getElem_map, List.getElem_range', Nat.zero_add, Nat.one_mul, slotRecord]
    refine ⟨trivial, trivial, fun hneg => by simp only [hneg, if_true], fun hnn => ?_⟩
    have hlt : (slotProfileIndex E.hashSizeB (E.tableB.drop (pageOffset index)) j).toNat <
        E.profiles.length := by
      rcases hidx j hj2 with h | h
      · omega
      · exact h
    simp only [show ¬ slotProfileIndex E.hashSizeB (E.tableB.drop (pageOffset index)) j < 0
      by omega, if_false]
    simp [List.getD_eq_getElem?_getD, List.getElem?_eq_getElem hlt]

/-- Instance of `parseEncodedEntry_slots`: the page of the table with keys of 247
bytes; it has 16 slots, the first with profile index `-1`, the others with
profile index 0. -/
theorem parseEncodedEntry_slots_witness :
    ∃ files, parseEncodedEntry toyCrypto longKeyTable 0 (toyCrypto.md5 longKeyPage) =
        some (.ok files) ∧
      files.length = slotCount longKeyTable.hashSizeB ∧
      ∀ j (hj : j < files.length),
        files[j].key =
          ((longKeyTable.tableB.drop (pageOffset 0)).drop
            (j * (longKeyTable.hashSizeB + 9))).take longKeyTable.hashSizeB ∧
        files[j].size =
          readBE (((longKeyTable.tableB.drop (pageOffset 0)).drop
            (j * (longKeyTable.hashSizeB + 9) + longKeyTable.hashSizeB + 5)).take 4) ∧
        (slotProfileIndex longKeyTable.hashSizeB (longKeyTable.tableB.drop (pageOffset 0)) j < 0 →
          files[j].params = []) ∧
        (0 ≤ slotProfileIndex longKeyTable.hashSizeB
            (longKeyTable.tableB.drop (pageOffset 0)) j →
          longKeyTable.profiles[(slotProfileIndex longKeyTable.hashSizeB
            (longKeyTable.tableB.drop (pageOffset 0)) j).toNat]? = some files[j].params) :=
  parseEncodedEntry_slots toyCrypto longKeyTable 0 (toyCrypto.md5 longKeyPage)
    (by decide!) (by decide!) (by decide!)

/-! ## Table A: records of a page -/

/-- C16 (table-A record decoding). For a page that passes its checksum and
consists of densely packed records followed by nothing or by bytes that open
with a zero `keyCount`, `parseEntry` returns exactly those records in page
order, whatever follows the zero `keyCount`. In the stored form of a record the
little-endian u16 at bytes 0..1 is the number of its keys, the big-endian u32
at bytes 2..5 its size, the next `hashSizeA` bytes its hash, and then come its
keys, `hashSizeA` bytes each, in order. A big-endian read is the little-endian
read of the reversed bytes. -/
theorem parseEntry_records (c : Crypto) (E : Encoding) (index : Nat) (checksum : Hex)
    (records : List FileInfo) (pad rest : List Nat)
    (hpage : E.tableA.drop (pageOffset index) = encodeRecords records ++ pad ++ rest)
    (hlen : (encodeRecords records).length + pad.length = EntrySize)
    (hsum : c.md5 (encodeRecords records ++ pad) = checksum)
    (hvalid : ∀ r ∈ records, validRecord E.hashSizeA r = true)
    (hpad : pad = [] ∨ ∃ t, pad = 0 :: 0 :: t) :
    parseEntry c E index checksum = some (.ok records) ∧
    (∀ r ∈ records,
      readLE ((encodeRecord r).take 2) = r.keys.length ∧
      readBE (((encodeRecord r).drop 2).take 4) = r.size ∧
      ((encodeRecord r).drop 6).take E.hashSizeA = r.hash ∧
      readKeys E.hashSizeA r.keys.length ((encodeRecord r).drop (6 + E.hashSizeA)) =
        some (r.keys, [])) ∧
    (∀ bs, readBE bs = readLE bs.reverse) := by
  refine ⟨?_, fun r hr => ?_, fun bs => rfl⟩
  · have hl : (encodeRecords records ++ pad).length = EntrySize := by
      simpa using hlen
    have hloop := parseEntryLoop_records E.hashSizeA records EntrySize 0 pad rest []
      hvalid (by omega) hpad (by omega)
    have htake : takeBytes EntrySize (encodeRecords records ++ pad ++ rest) =
        some (encodeRecords records ++ pad, rest) := takeBytes_append _ _ _ hl
    simp only [parseEntry, hpage, htake, hsum, ne_eq, not_true_eq_false, if_false]
    simpa using hloop
  · obtain ⟨_, h2, h3, h4, h5⟩ := (validRecord_iff _ r).mp (hvalid r hr)
    have hk := readKeys_join E.hashSizeA r.keys [] h5
    simp only [List.append_nil] at hk
    refine ⟨?_, ?_, ?_, ?_⟩
    · simpa [encodeRecord] using readLE_u16 _ h2
    · simpa [encodeRecord] using readBE_u32 _ h3
    · simp [encodeRecord, h4]
    · rw [← hk]
      congr 1
      have : (encodeRecord r) = ([r.keys.length % 256, r.keys.length / 256 % 256] ++
          [r.size / 2 ^ 24 % 256, r.size / 2 ^ 16 % 256, r.size / 2 ^ 8 % 256, r.size % 256] ++
          r.hash) ++ r.keys.foldr (fun k acc => k ++ acc) [] := by
        simp [encodeRecord]
      rw [this]
      apply List.drop_left'
      simp [h4]
      omega

/-- Instance of C16: the page of the scenario table; and the value of the test
`SwapBytes`: the bytes of 3221225406 in little-endian order read big-endian
give 3204448191. -/
theorem parseEntry_records_witness :
    parseEntry toyCrypto scenarioTable 0 (toyCrypto.md5 scenarioPage.bytes) =
      some (.ok scenarioPage.records) ∧
    readLE [0xBE, 0xFF, 0xFF, 0xBF] = 3221225406 ∧
    readBE [0xBE, 0xFF, 0xFF, 0xBF] = 3204448191 :=
  ⟨(parseEntry_records toyCrypto scenarioTable 0 (toyCrypto.md5 scenarioPage.bytes)
      scenarioPage.records scenarioPage.padding [] (by decide!) (by decide!) (by decide!) (by decide)
      (Or.inr ⟨List.replicate 4018 0, by decide!⟩)).1,
   by decide, by decide⟩

/-! ## The stream parser: layout -/

theorem read_goodAt (data : List Nat) (pos n : Nat) (h : pos + n ≤ data.length) :
    Encoding.read n (IStream.goodAt data pos) =
      (some ((data.drop pos).take n), IStream.goodAt data (pos + n)) := by
  have hl : ((data.drop pos).take n).length = n := by
    simp [List.length_take, List.length_drop]; omega
  simp [Encoding.read, IStream.read, IStream.goodAt, IStream.good, h, hl]

theorem seekg_goodAt (data : List Nat) (pos off : Nat) :
    (IStream.goodAt data pos).seekg off = IStream.goodAt data (pos + off) := by
  simp [IStream.seekg, IStream.goodAt]

theorem readVector_goodAt (data : List Nat) (pos n : Nat) (h : pos + n ≤ data.length) :
    readVector n (IStream.goodAt data pos) =
      ((data.drop pos).take n, IStream.goodAt data (pos + n)) := by
  have hl : ((data.drop pos).take n).length = n := by
    simp [List.length_take, List.length_drop]; omega
  simp [readVector, IStream.read, IStream.goodAt, IStream.good, h, hl]

theorem tellg_goodAt (data : List Nat) (pos : Nat) :
    (IStream.goodAt data pos).tellg = ((pos : Int), IStream.goodAt data pos) := by
  simp [IStream.tellg, IStream.goodAt, IStream.good]

theorem getline_goodAt (data : List Nat) (pos : Nat) (str tail : List Nat)
    (h : data.drop pos = str ++ 0 :: tail) (hz : 0 ∉ str) :
    (IStream.goodAt data pos).getline = (str, IStream.goodAt data (pos + str.length + 1)) := by
  have htw : (str ++ 0 :: tail).takeWhile (fun b => b != 0) = str := by
    rw [List.takeWhile_append_of_pos]
    · simp
    · intro b hb
      have : b ≠ 0 := fun h0 => hz (h0 ▸ hb)
      simpa using this
  simp [IStream.getline, IStream.goodAt, IStream.good, h, htw]

theorem profileRegion_length (bound : Nat) : ∀ (strs : List (List Nat)) (pos : Nat),
    profileRegion bound pos strs = true → strs.length ≤ bound + 1 - pos
  | [], _, _ => Nat.zero_le _
  | s :: rest, pos, h => by
    simp only [profileRegion, Bool.and_eq_true, decide_eq_true_eq] at h
    have ih := profileRegion_length bound rest (pos + s.length + 1) h.2
    simp only [List.length_cons]
    omega

theorem parseProfiles_strings (data : List Nat) (bound : Nat) :
    ∀ (strs : List (List Nat)) (pos fuel : Nat) (ps : List (List Nat)) (tail : List Nat),
      data.drop pos = encodeStrings strs ++ tail →
      (∀ s ∈ strs, 0 ∉ s) →
      profileRegion bound pos strs = true →
      strs.length ≤ fuel →
      parseProfiles bound fuel (IStream.goodAt data pos) ps =
        (some (.ok (ps ++ strs)), IStream.goodAt data (pos + (encodeStrings strs).length))
  | [], pos, fuel, ps, tail, _, _, hreg, _ => by
    simp only [profileRegion, decide_eq_true_eq] at hreg
    have hnot : ¬ ((pos : Int) < (bound : Int)) := by omega
    cases fuel <;>
      simp [parseProfiles, tellg_goodAt, hnot, encodeStrings]
  | s :: rest, pos, fuel, ps, tail, hdata, hzero, hreg, hfuel => by
    simp only [profileRegion, Bool.and_eq_true, decide_eq_true_eq] at hreg
    obtain ⟨fuel2, rfl⟩ : ∃ f2, fuel = f2 + 1 := ⟨fuel - 1, by
      simp only [List.length_cons] at hfuel; omega⟩
    have hlt : ((pos : Int) < (bound : Int)) := by omega
    have hd : data.drop pos = s ++ 0 :: (encodeStrings rest ++ tail) := by
      rw [hdata]; simp [encodeStrings]
    have hg := getline_goodAt data pos s _ hd (hzero s (List.mem_cons_self _ _))
    have hrest : data.drop (pos + s.length + 1) = encodeStrings rest ++ tail := by
      have : data.drop (pos + s.length + 1) = (data.drop pos).drop (s.length + 1) := by
        rw [List.drop_drop]; congr 1
      rw [this, hd]
      have : s ++ 0 :: (encodeStrings rest ++ tail) =
          (s ++ [0]) ++ (encodeStrings rest ++ tail) := by
        simp
      rw [this]
      exact List.drop_left' (by simp)
    have ih := parseProfiles_strings data bound rest (pos + s.length + 1) fuel2 (ps ++ [s]) tail
      hrest (fun x hx => hzero x (List.mem_cons_of_mem _ hx)) hreg.2
      (by simp only [List.length_cons] at hfuel; omega)
    simp only [parseProfiles, tellg_goodAt, hlt, if_true, hg]
    simp only [IStream.goodAt, Bool.false_eq_true, if_false] at ih ⊢
    rw [ih]
    simp [encodeStrings, Nat.add_assoc]
    omega

theorem parseHeaders_length (w : Nat) : ∀ (n : Nat) (s : IStream) (hs : List (Hex × Hex)),
    (parseHeaders w n s hs).1.length = hs.length + n
  | 0, _, _ => rfl
  | n + 1, s, hs => by
    simp only [parseHeaders]
    rw [parseHeaders_length w n]
    simp only [List.length_append, List.length_cons, List.length_nil]
    omega

theorem parseHeaders_goodAt (data : List Nat) (w : Nat) :
    ∀ (n pos : Nat) (hs : List (Hex × Hex)), pos + 2 * w * n ≤ data.length →
      parseHeaders w n (IStream.goodAt data pos) hs =
        (hs ++ (List.range' 0 n).map (fun i =>
            ((data.drop (pos + 2 * w * i)).take w, (data.drop (pos + 2 * w * i + w)).take w)),
          IStream.goodAt data (pos + 2 * w * n))
  | 0, pos, hs, _ => by simp [parseHeaders]
  | n + 1, pos, hs, h => by
    have hm : 2 * w * (n + 1) = 2 * w * n + 2 * w := Nat.mul_succ _ _
    have h1 := readVector_goodAt data pos w (by omega)
    have h2 := readVector_goodAt data (pos + w) w (by omega)
    have ih := parseHeaders_goodAt data w n (pos + w + w)
      (hs ++ [((data.drop pos).take w, (data.drop (pos + w)).take w)]) (by omega)
    simp only [parseHeaders, h1, h2, ih]
    refine Prod.ext ?_ ?_
    · simp only [List.append_assoc, List.singleton_append]
      congr 1
      rw [List.range'_succ, List.map_cons]
      simp only [Nat.mul_zero, Nat.add_zero]
      congr 1
      rw [List.range'_eq_map_range, List.range'_eq_map_range]
      simp only [List.map_map]
      apply List.map_congr_left
      intro i _
      simp only [Function.comp, Nat.zero_add]
      have e1 : pos + w + w + 2 * w * i = pos + 2 * w * (1 + i) := by
        rw [Nat.mul_add]; omega
      rw [e1]
    · simp only
      congr 1
      omega

theorem parseAfterSignature_ok (s1 s2 s3 s4 s5 s6 s7 : IStream) (a b ta tb st : List Nat)
    (profiles : List (List Nat))
    (h1 : Encoding.read 1 (s1.seekg 1) = (some a, s2))
    (h2 : Encoding.read 1 s2 = (some b, s3))
    (h3 : Encoding.read 4 (s3.seekg 4) = (some ta, s4))
    (h4 : Encoding.read 4 s4 = (some tb, s5))
    (h5 : Encoding.read 4 (s5.seekg 1) = (some st, s6))
    (hp : parseProfiles ((HeaderSize + readBE st + 2 ^ 32 - 1) % 2 ^ 32)
      ((HeaderSize + readBE st + 2 ^ 32 - 1) % 2 ^ 32 + 1) s6 [] = (some (.ok profiles), s7)) :
    parseAfterSignature s1 =
      (some (.ok (parseTables (readLE a) (readLE b) (readBE ta) (readBE tb) profiles s7).1),
        (parseTables (readLE a) (readLE b) (readBE ta) (readBE tb) profiles s7).2) := by
  unfold parseAfterSignature
  simp only [h1, h2, h3, h4, h5, hp]

theorem parse_good (data : List Nat) (h : 22 ≤ data.length)
    (hsig : readLE (data.take 2) = 0x4E45)
    (profiles : List (List Nat)) (s7 : IStream)
    (hp : parseProfiles (profileBound data) (profileBound data + 1) (IStream.goodAt data 22) [] =
      (some (.ok profiles), s7)) :
    parse (IStream.open data) =
      (some (.ok (parseTables (readLE ((data.drop 3).take 1)) (readLE ((data.drop 4).take 1))
          (pageCountA data) (pageCountB data) profiles s7).1),
        (parseTables (readLE ((data.drop 3).take 1)) (readLE ((data.drop 4).take 1))
          (pageCountA data) (pageCountB data) profiles s7).2) := by
  have h0 : Encoding.read 2 (IStream.open data) =
      (some (data.take 2), IStream.goodAt data 2) := by
    have := read_goodAt data 0 2 (by omega)
    simpa using this
  have h1 : Encoding.read 1 ((IStream.goodAt data 2).seekg 1) =
      (some ((data.drop 3).take 1), IStream.goodAt data 4) := by
    rw [seekg_goodAt]; exact read_goodAt data 3 1 (by omega)
  have h2 : Encoding.read 1 (IStream.goodAt data 4) =
      (some ((data.drop 4).take 1), IStream.goodAt data 5) := read_goodAt data 4 1 (by omega)
  have h3 : Encoding.read 4 ((IStream.goodAt data 5).seekg 4) =
      (some ((data.drop 9).take 4), IStream.goodAt data 13) := by
    rw [seekg_goodAt]; exact read_goodAt data 9 4 (by omega)
  have h4 : Encoding.read 4 (IStream.goodAt data 13) =
      (some ((data.drop 13).take 4), IStream.goodAt data 17) := read_goodAt data 13 4 (by omega)
  have h5 : Encoding.read 4 ((IStream.goodAt data 17).seekg 1) =
      (some ((data.drop 18).take 4), IStream.goodAt data 22) := by
    rw [seekg_goodAt]; exact read_goodAt data 18 4 (by omega)
  have hafter := parseAfterSignature_ok _ _ _ _ _ _ s7 _ _ _ _ _ profiles h1 h2 h3 h4 h5 hp
  unfold parse
  rw [h0]
  simp only
  rw [if_neg (by rw [hsig]; exact fun hne => hne rfl)]
  exact hafter

theorem parseTables_A (a b n m : Nat) (ps : List (List Nat)) (s : IStream) :
    (parseTables a b n m ps s).1.hashSizeA = a ∧
    (parseTables a b n m ps s).1.hashSizeB = b ∧
    (parseTables a b n m ps s).1.headersA = (parseHeaders a n s []).1.reverse ∧
    (parseTables a b n m ps s).1.tableA =
      (readVector ((EntrySize * n) % 2 ^ 32) (parseHeaders a n s []).2).1 :=
  ⟨rfl, rfl, rfl, rfl⟩

theorem parseTables_B (a b n m : Nat) (ps : List (List Nat)) (s : IStream) :
    (parseTables a b n m ps s).1.headersB =
      (parseHeaders a m (readVector ((EntrySize * n) % 2 ^ 32) (parseHeaders a n s []).2).2
        []).1.reverse ∧
    (parseTables a b n m ps s).1.tableB =
      (readVector ((EntrySize * m) % 2 ^ 32)
        (parseHeaders a m (readVector ((EntrySize * n) % 2 ^ 32) (parseHeaders a n s []).2).2
          []).2).1 :=
  ⟨rfl, rfl⟩

theorem readLE_byte (data : List Nat) (i : Nat) (h : i < data.length) :
    readLE ((data.drop i).take 1) = data.getD i 0 := by
  rw [List.drop_eq_getElem_cons h]
  simp [readLE, List.getD_eq_getElem?_getD, List.getElem?_eq_getElem h]

theorem take_drop_take (l : List Nat) (x n k m : Nat) (h : k + m ≤ n) :
    ((((l.drop x).take n).drop k).take m) = (l.drop (x + k)).take m := by
  rw [List.drop_take, List.take_take, List.drop_drop]
  congr 1
  omega

theorem headers_get (data : List Nat) (w n pos i : Nat)
    (l : List (Hex × Hex))
    (hl : l = ((List.range' 0 n).map (fun i =>
      ((data.drop (pos + 2 * w * i)).take w, (data.drop (pos + 2 * w * i + w)).take w))).reverse)
    (hi2 : i < l.reverse.length) :
    l.reverse[i] = ((data.drop (pos + 2 * w * i)).take w,
      (data.drop (pos + 2 * w * i + w)).take w) := by
  subst hl
  simp [List.getElem_range']

/-- C15 (header and block layout). Let the stream open with a valid signature,
let profile strings fill the region behind the 22-byte header up to the loop
bound given by `stringTableSize` (bytes 18..21, big-endian), let `pageCountA`
(bytes 9..12, big-endian) be below `2^20`, and let the stream hold the table-A
header tuples and page data behind the strings. Then `parse` returns a table
with `hashSizeA` = byte 3 and `hashSizeB` = byte 4, with `pageCountA` table-A
headers and `pageCountB` (bytes 13..16) table-B headers; the table-A headers,
in file order, are the consecutive pairs of `hashSizeA` bytes behind the
strings, and `tableA` is the `4096 * pageCountA` bytes behind them, page `i`
being the `i`-th block of 4096 bytes. -/
theorem parse_layout (data : List Nat) (strs : List (List Nat)) (tail : List Nat)
    (hsig : readLE (data.take 2) = 0x4E45)
    (hstr : data.drop 22 = encodeStrings strs ++ tail)
    (hzero : ∀ s ∈ strs, 0 ∉ s)
    (hregion : profileRegion (profileBound data) 22 strs = true)
    (hN : pageCountA data < 2 ^ 20)
    (henough : tableAEnd data strs ≤ data.length) :
    ∃ E s, parse (IStream.open data) = (some (.ok E), s) ∧
      E.hashSizeA = data.getD 3 0 ∧ E.hashSizeB = data.getD 4 0 ∧
      E.headersA.length = pageCountA data ∧ E.headersB.length = pageCountB data ∧
      (∀ i (hi : i < E.headersA.reverse.length),
        E.headersA.reverse[i] =
          ((data.drop (tableStart strs + 2 * data.getD 3 0 * i)).take (data.getD 3 0),
           (data.drop (tableStart strs + 2 * data.getD 3 0 * i + data.getD 3 0)).take
             (data.getD 3 0))) ∧
      E.tableA = (data.drop (tableStart strs + 2 * data.getD 3 0 * pageCountA data)).take
        (EntrySize * pageCountA data) ∧
      E.tableA.length = EntrySize * pageCountA data ∧
      (∀ i, i < pageCountA data →
        (E.tableA.drop (pageOffset i)).take EntrySize =
          (data.drop (tableStart strs + 2 * data.getD 3 0 * pageCountA data +
            EntrySize * i)).take EntrySize) := by
  have hts : tableStart strs = 22 + (encodeStrings strs).length := rfl
  have hte : tableAEnd data strs =
      tableStart strs + 2 * data.getD 3 0 * pageCountA data + EntrySize * pageCountA data := rfl
  have hlen22 : 22 ≤ data.length := by omega
  have ha : readLE ((data.drop 3).take 1) = data.getD 3 0 := readLE_byte data 3 (by omega)
  have hb : readLE ((data.drop 4).take 1) = data.getD 4 0 := readLE_byte data 4 (by omega)
  have hfuel := profileRegion_length _ strs 22 hregion
  have hprof := parseProfiles_strings data (profileBound data) strs 22 (profileBound data + 1) []
    tail hstr hzero hregion (by omega)
  rw [List.nil_append, ← hts] at hprof
  have hparse := parse_good data hlen22 hsig strs _ hprof
  rw [ha, hb] at hparse
  obtain ⟨hA1, hA2, hA3, hA4⟩ := parseTables_A (data.getD 3 0) (data.getD 4 0) (pageCountA data)
    (pageCountB data) strs (IStream.goodAt data (tableStart strs))
  obtain ⟨hB1, _⟩ := parseTables_B (data.getD 3 0) (data.getD 4 0) (pageCountA data)
    (pageCountB data) strs (IStream.goodAt data (tableStart strs))
  have hhA := parseHeaders_goodAt data (data.getD 3 0) (pageCountA data) (tableStart strs) []
    (by omega)
  have hmod : (EntrySize * pageCountA data) % 2 ^ 32 = EntrySize * pageCountA data := by
    unfold EntrySize
    exact Nat.mod_eq_of_lt (by omega)
  have htA := readVector_goodAt data (tableStart strs + 2 * data.getD 3 0 * pageCountA data)
    (EntrySize * pageCountA data) (by omega)
  rw [hhA] at hA3 hA4
  rw [hmod, htA] at hA4
  simp only [List.nil_append] at hA3
  have hlenA : ((data.drop (tableStart strs + 2 * data.getD 3 0 * pageCountA data)).take
      (EntrySize * pageCountA data)).length = EntrySize * pageCountA data := by
    rw [List.length_take, List.length_drop]; omega
  refine ⟨_, _, hparse, hA1, hA2, ?_, ?_, ?_, hA4, ?_, ?_⟩
  · rw [hA3]; simp
  · rw [hB1, List.length_reverse, parseHeaders_length]; simp
  · intro i hi
    exact headers_get data _ _ _ i _ hA3 hi
  · rw [hA4]; exact hlenA
  · intro i hi
    have hoff : pageOffset i = EntrySize * i := by
      unfold pageOffset EntrySize
      exact Nat.mod_eq_of_lt (by omega)
    have hle : EntrySize * i + EntrySize ≤ EntrySize * pageCountA data := by
      have : EntrySize * (i + 1) ≤ EntrySize * pageCountA data :=
        Nat.mul_le_mul_left _ (by omega)
      rw [Nat.mul_succ] at this
      exact this
    rw [hA4, hoff]
    exact take_drop_take data _ _ _ _ hle

theorem layoutStream_strings : layoutStream.drop 22 = encodeStrings [[65], [66]] ++
    (hx 1 ++ hx 2 ++ scenarioPage.bytes ++ List.replicate 16 0 ++ hx 3 ++
      List.replicate 4096 0 ++ [67, 0]) := by
  unfold layoutStream
  simp only [List.append_assoc]
  rfl

/-- Instance of C15: `layoutStream` has `hashSizeA = 16`, `hashSizeB = 7`, the
profile strings `A` and `B` within the bound 21, one table-A page and one
table-B page. -/
theorem parse_layout_witness :
    ∃ E s, parse (IStream.open layoutStream) = (some (.ok E), s) ∧
      E.hashSizeA = layoutStream.getD 3 0 ∧ E.hashSizeB = layoutStream.getD 4 0 ∧
      E.headersA.length = pageCountA layoutStream ∧
      E.headersB.length = pageCountB layoutStream ∧
      (∀ i (hi : i < E.headersA.reverse.length),
        E.headersA.reverse[i] =
          ((layoutStream.drop (tableStart [[65], [66]] + 2 * layoutStream.getD 3 0 * i)).take
             (layoutStream.getD 3 0),
           (layoutStream.drop (tableStart [[65], [66]] + 2 * layoutStream.getD 3 0 * i +
             layoutStream.getD 3 0)).take (layoutStream.getD 3 0))) ∧
      E.tableA = (layoutStream.drop (tableStart [[65], [66]] +
          2 * layoutStream.getD 3 0 * pageCountA layoutStream)).take
        (EntrySize * pageCountA layoutStream) ∧
      E.tableA.length = EntrySize * pageCountA layoutStream ∧
      (∀ i, i < pageCountA layoutStream →
        (E.tableA.drop (pageOffset i)).take EntrySize =
          (layoutStream.drop (tableStart [[65], [66]] +
            2 * layoutStream.getD 3 0 * pageCountA layoutStream + EntrySize * i)).take
            EntrySize) :=
  parse_layout layoutStream [[65], [66]]
    (hx 1 ++ hx 2 ++ scenarioPage.bytes ++ List.replicate 16 0 ++ hx 3 ++
      List.replicate 4096 0 ++ [67, 0])
    (by decide!) layoutStream_strings (by decide) (by decide!) (by decide!) (by decide!)

/-! ## The stream parser: table B -/

/-- C21 (table-B header width). Let the stream open with a valid signature, have
the profile strings `strs` within the bound, page counts below `2^20`, and hold
the header tuples and page data of both tables. Then `parse` returns a table
with `hashSizeB` = byte 4 and `pageCountB` table-B headers; these are, in file
order, the consecutive pairs of `hashSizeA` (byte 3) bytes behind the table-A
page data, and `tableB` is the `4096 * pageCountB` bytes that start
`2 * hashSizeA * pageCountB` bytes behind the end of the table-A page data.
Byte 4 is not constrained and does not occur in any position. -/
theorem parse_tableB_layout (data : List Nat) (strs : List (List Nat)) (tail : List Nat)
    (hsig : readLE (data.take 2) = 0x4E45)
    (hstr : data.drop 22 = encodeStrings strs ++ tail)
    (hzero : ∀ s ∈ strs, 0 ∉ s)
    (hregion : profileRegion (profileBound data) 22 strs = true)
    (hN : pageCountA data < 2 ^ 20) (hM : pageCountB data < 2 ^ 20)
    (henough : tableAEnd data strs + 2 * data.getD 3 0 * pageCountB data +
      EntrySize * pageCountB data ≤ data.length) :
    ∃ E s, parse (IStream.open data) = (some (.ok E), s) ∧
      E.hashSizeA = data.getD 3 0 ∧ E.hashSizeB = data.getD 4 0 ∧
      E.headersB.length = pageCountB data ∧
      (∀ i (hi : i < E.headersB.reverse.length),
        E.headersB.reverse[i] =
          ((data.drop (tableAEnd data strs + 2 * data.getD 3 0 * i)).take (data.getD 3 0),
           (data.drop (tableAEnd data strs + 2 * data.getD 3 0 * i + data.getD 3 0)).take
             (data.getD 3 0))) ∧
      E.tableB = (data.drop (tableAEnd data strs + 2 * data.getD 3 0 * pageCountB data)).take
        (EntrySize * pageCountB data) ∧
      E.tableB.length = EntrySize * pageCountB data := by
  have hts : tableStart strs = 22 + (encodeStrings strs).length := rfl
  have hte : tableAEnd data strs =
      tableStart strs + 2 * data.getD 3 0 * pageCountA data + EntrySize * pageCountA data := rfl
  have hlen22 : 22 ≤ data.length := by omega
  have ha : readLE ((data.drop 3).take 1) = data.getD 3 0 := readLE_byte data 3 (by omega)
  have hb : readLE ((data.drop 4).take 1) = data.getD 4 0 := readLE_byte data 4 (by omega)
  have hfuel := profileRegion_length _ strs 22 hregion
  have hprof := parseProfiles_strings data (profileBound data) strs 22 (profileBound data + 1) []
    tail hstr hzero hregion (by omega)
  rw [List.nil_append, ← hts] at hprof
  have hparse := parse_good data hlen22 hsig strs _ hprof
  rw [ha, hb] at hparse
  obtain ⟨hA1, hA2, _, _⟩ := parseTables_A (data.getD 3 0) (data.getD 4 0) (pageCountA data)
    (pageCountB data) strs (IStream.goodAt data (tableStart strs))
  obtain ⟨hB1, hB2⟩ := parseTables_B (data.getD 3 0) (data.getD 4 0) (pageCountA data)
    (pageCountB data) strs (IStream.goodAt data (tableStart strs))
  have hhA := parseHeaders_goodAt data (data.getD 3 0) (pageCountA data) (tableStart strs) []
    (by omega)
  have hmodA : (EntrySize * pageCountA data) % 2 ^ 32 = EntrySize * pageCountA data := by
    unfold EntrySize
    exact Nat.mod_eq_of_lt (by omega)
  have hmodB : (EntrySize * pageCountB data) % 2 ^ 32 = EntrySize * pageCountB data := by
    unfold EntrySize
    exact Nat.mod_eq_of_lt (by omega)
  have htA := readVector_goodAt data (tableStart strs + 2 * data.getD 3 0 * pageCountA data)
    (EntrySize * pageCountA data) (by omega)
  have hhB := parseHeaders_goodAt data (data.getD 3 0) (pageCountB data) (tableAEnd data strs) []
    (by omega)
  have htB := readVector_goodAt data (tableAEnd data strs + 2 * data.getD 3 0 * pageCountB data)
    (EntrySize * pageCountB data) (by omega)
  rw [hhA, hmodA, htA, ← hte, hhB] at hB1 hB2
  rw [hmodB, htB] at hB2
  simp only [List.nil_append] at hB1
  refine ⟨_, _, hparse, hA1, hA2, ?_, ?_, hB2, ?_⟩
  · rw [hB1]; simp
  · intro i hi
    exact headers_get data _ _ _ i _ hB1 hi
  · rw [hB2, List.length_take, List.length_drop]; omega

/-- Instance of C21: `layoutStream` declares `hashSizeA = 16` and
`hashSizeB = 7`; its one table-B header is read as two fields of 16 bytes. -/
theorem parse_tableB_layout_witness :
    ∃ E s, parse (IStream.open layoutStream) = (some (.ok E), s) ∧
      E.hashSizeA = layoutStream.getD 3 0 ∧ E.hashSizeB = layoutStream.getD 4 0 ∧
      E.headersB.length = pageCountB layoutStream ∧
      (∀ i (hi : i < E.headersB.reverse.length),
        E.headersB.reverse[i] =
          ((layoutStream.drop (tableAEnd layoutStream [[65], [66]] +
              2 * layoutStream.getD 3 0 * i)).take (layoutStream.getD 3 0),
           (layoutStream.drop (tableAEnd layoutStream [[65], [66]] +
              2 * layoutStream.getD 3 0 * i + layoutStream.getD 3 0)).take
             (layoutStream.getD 3 0))) ∧
      E.tableB = (layoutStream.drop (tableAEnd layoutStream [[65], [66]] +
          2 * layoutStream.getD 3 0 * pageCountB layoutStream)).take
        (EntrySize * pageCountB layoutStream) ∧
      E.tableB.length = EntrySize * pageCountB layoutStream :=
  parse_tableB_layout layoutStream [[65], [66]]
    (hx 1 ++ hx 2 ++ scenarioPage.bytes ++ List.replicate 16 0 ++ hx 3 ++
      List.replicate 4096 0 ++ [67, 0])
    (by decide!) layoutStream_strings (by decide) (by decide!) (by decide!) (by decide!) (by decide!)

/-! ## Range queries: the walk over the pages -/

theorem listFileInfoLoop_stall (c : Crypto) (E : Encoding) (count offset : Nat)
    (list : List FileInfo)
    (h : listFileInfoStep c E count offset list = some (.next offset list)) :
    ∀ fuel, listFileInfoLoop c E count fuel offset list = none
  | 0 => rfl
  | fuel + 1 => by
    unfold listFileInfoLoop
    rw [h]
    exact listFileInfoLoop_stall c E count offset list h fuel

/-- C22, the code at `listFileInfo(0, 1)` on a well-formed table A whose only
page passes its checksum and decodes to no record: a pass of the loop takes
`n = 0` records, leaves the cursor at 0 and the list empty, and goes on; the
loop is still running after any number of passes. -/
theorem listFileInfo_stall :
    wellFormedPages zeroPageTable.hashSizeA [zeroPage] = true ∧
    parseEntry toyCrypto zeroPageTable 0 (toyCrypto.md5 zeroPage.bytes) = some (.ok []) ∧
    listFileInfoStep toyCrypto zeroPageTable 1 0 [] = some (.next 0 []) ∧
    ∀ fuel, listFileInfo toyCrypto zeroPageTable fuel 0 1 = none :=
  ⟨by decide!, by decide!, by decide!,
    listFileInfoLoop_stall toyCrypto zeroPageTable 1 0 [] (by decide!)⟩

end Casc
